import Mathlib

/-!
# Verification of the pascal-seo CSV-import and rank-chart pipeline

Shallow embedding of the repository's core logic:

* the proleptic-Gregorian calendar arithmetic underlying JavaScript `Date`
  (UTC epoch-day arithmetic; the runtime is assumed to be in a timezone with
  non-negative UTC offset, e.g. UTC or JST, so that the local civil date of a
  UTC-midnight instant equals its UTC civil date — the code mixes
  `toISOString` with local accessors such as `getDay`/`getFullYear`);
* `parsePascalCsv` / `validatePascalCsv` (the CSV schema mapper and row
  parser);
* `importPascalCsv` (the import orchestrator) over a keyed-upsert store
  modelling the external Supabase Persistence Gateway;
* the `RankChart` aggregation (`generateDateRange`, `generatePeriodRange`,
  `aggregatedData`, `yAxisDomain`).

Dates are modelled as epoch-day counts (`Int`, days since 1970-01-01 UTC).
`/` and `%` on `Int` are Euclidean division/remainder, which coincide with
floor division for the positive literal divisors used throughout.
-/

/-! ## Civil calendar arithmetic (model of JS `Date`) -/

/-- Epoch day count of a civil date (proleptic Gregorian, Hinnant's
`days_from_civil`), as computed by JS `Date.UTC(y, m-1, d) / 86400000`. -/
def daysFromCivil (y m d : Int) : Int :=
  let yy := if m ≤ 2 then y - 1 else y
  let era := yy / 400
  let yoe := yy - era * 400
  let mp := if m ≤ 2 then m + 9 else m - 3
  let doy := (153 * mp + 2) / 5 + d - 1
  let doe := yoe * 365 + yoe / 4 - yoe / 100 + doy
  era * 146097 + doe - 719468

/-- 400-year era index of an epoch day. -/
def civilEra (z : Int) : Int := (z + 719468) / 146097

/-- Day within the 400-year era, in `[0, 146096]`. -/
def civilDoe (z : Int) : Int := z + 719468 - civilEra z * 146097

/-- First guess of the year-of-era. -/
def civilY0 (z : Int) : Int := 400 * civilDoe z / 146097

/-- Year-of-era (0..399): the guess, promoted by one when the next year has
already started.  Equivalent to Hinnant's closed form; written as a
guess-and-fixup so the arithmetic is within reach of `omega`. -/
def civilYoe (z : Int) : Int :=
  if civilY0 z ≤ 398 ∧
      365 * (civilY0 z + 1) + (civilY0 z + 1) / 4 - (civilY0 z + 1) / 100 ≤ civilDoe z then
    civilY0 z + 1
  else civilY0 z

/-- Day-of-year, counted from March 1 (0-based). -/
def civilDoy (z : Int) : Int :=
  civilDoe z - (365 * civilYoe z + civilYoe z / 4 - civilYoe z / 100)

/-- Month index counted from March (0 = March .. 11 = February). -/
def civilMp (z : Int) : Int := (5 * civilDoy z + 2) / 153

/-- Civil day-of-month (1..31) of an epoch day. -/
def civilDay (z : Int) : Int := civilDoy z - (153 * civilMp z + 2) / 5 + 1

/-- Civil month (1..12) of an epoch day. -/
def civilMonth (z : Int) : Int := if civilMp z < 10 then civilMp z + 3 else civilMp z - 9

/-- Civil year of an epoch day. -/
def civilYear (z : Int) : Int :=
  if civilMonth z ≤ 2 then civilYoe z + civilEra z * 400 + 1 else civilYoe z + civilEra z * 400

/-- Civil (year, month, day) of an epoch day; model of the JS `Date`
accessors `getUTCFullYear`/`getUTCMonth`/`getUTCDate`. -/
def civilFromDays (z : Int) : Int × Int × Int := (civilYear z, civilMonth z, civilDay z)

/-- Year-start day-of-era for year-of-era `n` (`Nat` version, for the
kernel-checked finite facts below). -/
def natYs (n : Nat) : Nat := 365 * n + n / 4 - n / 100

set_option maxRecDepth 4000 in
theorem natYs_facts : ∀ n < 400,
    400 * natYs n ≤ 146097 * n + 399 ∧
    natYs (n + 1) ≤ natYs n + 366 ∧
    (natYs n + 366 = natYs (n + 1) → ((n + 1) % 4 = 0 ∧ ((n + 1) % 100 ≠ 0 ∨ n + 1 = 400))) ∧
    (n < 399 → 146097 * (n + 1) ≤ 400 * natYs (n + 2)) := by
  decide

theorem natYs_cast (y : Int) (h : 0 ≤ y) :
    (natYs y.toNat : Int) = 365 * y + y / 4 - y / 100 := by
  simp only [natYs]; omega

/-- Era-year facts over `Int`, lifted from the 400-case kernel check. -/
theorem ysI_facts (y : Int) (h0 : 0 ≤ y) (h1 : y ≤ 399) :
    400 * (365 * y + y / 4 - y / 100) ≤ 146097 * y + 399 ∧
    365 * (y + 1) + (y + 1) / 4 - (y + 1) / 100 ≤ (365 * y + y / 4 - y / 100) + 366 ∧
    ((365 * y + y / 4 - y / 100) + 366 = 365 * (y + 1) + (y + 1) / 4 - (y + 1) / 100 →
      ((y + 1) % 4 = 0 ∧ ((y + 1) % 100 ≠ 0 ∨ y + 1 = 400))) ∧
    (y < 399 → 146097 * (y + 1) ≤ 400 * (365 * (y + 2) + (y + 2) / 4 - (y + 2) / 100)) := by
  have hn : y.toNat < 400 := by omega
  have hfacts := natYs_facts y.toNat hn
  have hc0 := natYs_cast y h0
  have hc1 := natYs_cast (y + 1) (by omega)
  have hc2 := natYs_cast (y + 2) (by omega)
  have e1 : (y + 1).toNat = y.toNat + 1 := by omega
  have e2 : (y + 2).toNat = y.toNat + 2 := by omega
  rw [e1] at hc1
  rw [e2] at hc2
  omega

theorem era_doe_decomp (z : Int) :
    z = civilEra z * 146097 + civilDoe z - 719468 ∧ 0 ≤ civilDoe z ∧ civilDoe z ≤ 146096 := by
  simp only [civilDoe, civilEra]; omega

theorem yoe_correct (doe y0 yoe : Int) (hdoe : 0 ≤ doe ∧ doe ≤ 146096)
    (hy0 : y0 = 400 * doe / 146097)
    (hyoe : yoe = if y0 ≤ 398 ∧ 365 * (y0 + 1) + (y0 + 1) / 4 - (y0 + 1) / 100 ≤ doe then
        y0 + 1 else y0) :
    0 ≤ yoe ∧ yoe ≤ 399 ∧ 365 * yoe + yoe / 4 - yoe / 100 ≤ doe ∧
      doe - (365 * yoe + yoe / 4 - yoe / 100) ≤ 365 ∧
      (doe - (365 * yoe + yoe / 4 - yoe / 100) = 365 →
        (yoe + 1) % 4 = 0 ∧ ((yoe + 1) % 100 ≠ 0 ∨ yoe = 399)) := by
  have h1 : 146097 * y0 ≤ 400 * doe := by rw [hy0]; omega
  have h2 : 400 * doe ≤ 146097 * y0 + 146096 := by rw [hy0]; omega
  have h399 : y0 ≤ 399 := by omega
  have h00 : 0 ≤ y0 := by omega
  obtain ⟨gA, gB, gC, gD⟩ := ysI_facts y0 h00 h399
  split_ifs at hyoe with hcond
  · obtain ⟨hc1, hc2⟩ := hcond
    obtain ⟨gA', gB', gC', gD'⟩ := ysI_facts (y0 + 1) (by omega) (by omega)
    subst hyoe
    omega
  · subst hyoe
    omega

theorem month_day_reconstruct (doy mp d m : Int) (h0 : 0 ≤ doy) (h1 : doy ≤ 365)
    (hmp : mp = (5 * doy + 2) / 153)
    (hd : d = doy - (153 * mp + 2) / 5 + 1)
    (hm : m = if mp < 10 then mp + 3 else mp - 9) :
    ((m ≤ 2 → (153 * (m + 9) + 2) / 5 + d - 1 = doy) ∧
      (¬(m ≤ 2) → (153 * (m - 3) + 2) / 5 + d - 1 = doy)) ∧
      1 ≤ m ∧ m ≤ 12 ∧ 1 ≤ d ∧ d ≤ 31 ∧ (m ≤ 2 ↔ 10 ≤ mp) ∧
      (mp ≤ 10 → doy < (153 * (mp + 1) + 2) / 5) := by
  split_ifs at hm <;> subst hm <;> refine ⟨⟨fun h => by omega, fun h => by omega⟩, ?_⟩ <;> omega

/-- The civil decomposition inverts epoch-day reconstruction. -/
theorem days_civil_roundtrip (z : Int) :
    daysFromCivil (civilYear z) (civilMonth z) (civilDay z) = z := by
  obtain ⟨hz, hdoe0, hdoe1⟩ := era_doe_decomp z
  obtain ⟨hy0, hy399, hys, hdoy365, hleap⟩ :=
    yoe_correct (civilDoe z) (civilY0 z) (civilYoe z) ⟨hdoe0, hdoe1⟩ rfl rfl
  have hdoy0 : 0 ≤ civilDoy z := by simp only [civilDoy]; omega
  have hdoy1 : civilDoy z ≤ 365 := by simp only [civilDoy]; omega
  obtain ⟨⟨hrec1, hrec2⟩, hm1, hm2, hd1, hd2, hiff, hsharp⟩ :=
    month_day_reconstruct (civilDoy z) (civilMp z) (civilDay z) (civilMonth z)
      hdoy0 hdoy1 rfl rfl rfl
  have hyr : civilYear z = if civilMonth z ≤ 2 then civilYoe z + civilEra z * 400 + 1
      else civilYoe z + civilEra z * 400 := rfl
  have hdoyd : civilDoy z = civilDoe z - (365 * civilYoe z + civilYoe z / 4 - civilYoe z / 100) :=
    rfl
  simp only [daysFromCivil]
  have hyy : (if civilMonth z ≤ 2 then civilYear z - 1 else civilYear z) =
      civilYoe z + civilEra z * 400 := by
    split_ifs at hyr ⊢ <;> omega
  rw [hyy]
  have hera : (civilYoe z + civilEra z * 400) / 400 = civilEra z := by omega
  rw [hera]
  have hsub : civilYoe z + civilEra z * 400 - civilEra z * 400 = civilYoe z := by ring
  rw [hsub]
  split_ifs with hc1
  · replace hrec1 := hrec1 hc1; omega
  · replace hrec2 := hrec2 hc1; omega

theorem civil_month_range (z : Int) : 1 ≤ civilMonth z ∧ civilMonth z ≤ 12 := by
  obtain ⟨hz, hdoe0, hdoe1⟩ := era_doe_decomp z
  obtain ⟨hy0, hy399, hys, hdoy365, hleap⟩ :=
    yoe_correct (civilDoe z) (civilY0 z) (civilYoe z) ⟨hdoe0, hdoe1⟩ rfl rfl
  have hdoy0 : 0 ≤ civilDoy z := by simp only [civilDoy]; omega
  have hdoy1 : civilDoy z ≤ 365 := by simp only [civilDoy]; omega
  obtain ⟨hh, hm1, hm2, hd1, hd2, hiff, hsharp⟩ :=
    month_day_reconstruct (civilDoy z) (civilMp z) (civilDay z) (civilMonth z)
      hdoy0 hdoy1 rfl rfl rfl
  exact ⟨hm1, hm2⟩

theorem civil_day_range (z : Int) : 1 ≤ civilDay z ∧ civilDay z ≤ 31 := by
  obtain ⟨hz, hdoe0, hdoe1⟩ := era_doe_decomp z
  obtain ⟨hy0, hy399, hys, hdoy365, hleap⟩ :=
    yoe_correct (civilDoe z) (civilY0 z) (civilYoe z) ⟨hdoe0, hdoe1⟩ rfl rfl
  have hdoy0 : 0 ≤ civilDoy z := by simp only [civilDoy]; omega
  have hdoy1 : civilDoy z ≤ 365 := by simp only [civilDoy]; omega
  obtain ⟨hh, hm1, hm2, hd1, hd2, hiff, hsharp⟩ :=
    month_day_reconstruct (civilDoy z) (civilMp z) (civilDay z) (civilMonth z)
      hdoy0 hdoy1 rfl rfl rfl
  exact ⟨hd1, hd2⟩

/-! ## ISO-8601 date strings (model of `toISOString().split('T')[0]` and of
`new Date("YYYY-MM-DD")`) -/

def digitChar (n : Nat) : Char := Char.ofNat (48 + n)

def digitVal (c : Char) : Nat := c.toNat - 48

/-- Decimal digit test (same semantics as `Char.isDigit`, stated on `toNat`
so that proofs can treat the code point as an integer). -/
def isDigitChar (c : Char) : Bool := decide (48 ≤ c.toNat ∧ c.toNat ≤ 57)

/-- Two right-aligned zero-padded decimal digits (fields of `toISOString`
are always two digits). -/
def pad2 (n : Nat) : List Char := [digitChar (n / 10 % 10), digitChar (n % 10)]

/-- Four-digit zero-padded year of `toISOString` (years 0..9999). -/
def pad4 (n : Nat) : List Char :=
  [digitChar (n / 1000 % 10), digitChar (n / 100 % 10), digitChar (n / 10 % 10),
    digitChar (n % 10)]

/-- Six-digit zero-padded year for the expanded-year forms `+YYYYYY`/`-YYYYYY`
of `toISOString` (only reachable outside 0000-01-01..9999-12-31). -/
def pad6 (n : Nat) : List Char :=
  [digitChar (n / 100000 % 10), digitChar (n / 10000 % 10), digitChar (n / 1000 % 10),
    digitChar (n / 100 % 10), digitChar (n / 10 % 10), digitChar (n % 10)]

/-- The date part of `new Date(z * 86400000).toISOString()`: `"YYYY-MM-DD"`. -/
def isoOfEpoch (z : Int) : String :=
  let y := civilYear z
  let md := '-' :: pad2 (civilMonth z).toNat ++ '-' :: pad2 (civilDay z).toNat
  if 0 ≤ y ∧ y ≤ 9999 then ⟨pad4 y.toNat ++ md⟩
  else if 9999 < y then ⟨'+' :: (pad6 y.toNat ++ md)⟩
  else ⟨'-' :: (pad6 (-y).toNat ++ md)⟩

/-- Days in a civil month (used to model the range check JS applies when
parsing a date-only string: `new Date("2025-02-31")` is an Invalid Date). -/
def daysInMonth (y m : Int) : Int :=
  if m = 2 then (if y % 4 = 0 ∧ (y % 100 ≠ 0 ∨ y % 400 = 0) then 29 else 28)
  else if m = 4 ∨ m = 6 ∨ m = 9 ∨ m = 11 then 30 else 31

/-- Range-check and convert the three parsed fields of a date-only string. -/
def isoFields (y m d : Int) : Option Int :=
  if 1 ≤ m ∧ m ≤ 12 ∧ 1 ≤ d ∧ d ≤ daysInMonth y m then some (daysFromCivil y m d) else none

/-- Model of `new Date(s).getTime() / 86400000` for a date-only string:
accepts exactly the canonical `"YYYY-MM-DD"` form with an in-range month and
day-of-month, returning the epoch day; anything else is an Invalid Date
(`none`). -/
def parseIsoDate (s : String) : Option Int :=
  match s.data with
  | [y1, y2, y3, y4, h1, m1, m2, h2, d1, d2] =>
    if isDigitChar y1 ∧ isDigitChar y2 ∧ isDigitChar y3 ∧ isDigitChar y4 ∧ h1 = '-' ∧
        isDigitChar m1 ∧ isDigitChar m2 ∧ h2 = '-' ∧ isDigitChar d1 ∧ isDigitChar d2 then
      isoFields
        ((digitVal y1 * 1000 + digitVal y2 * 100 + digitVal y3 * 10 + digitVal y4 : Nat) : Int)
        ((digitVal m1 * 10 + digitVal m2 : Nat) : Int)
        ((digitVal d1 * 10 + digitVal d2 : Nat) : Int)
    else none
  | _ => none

theorem digit_facts (n : Nat) (h : n < 10) :
    isDigitChar (digitChar n) = true ∧ digitVal (digitChar n) = n ∧ digitChar n ≠ '-' := by
  interval_cases n <;> exact ⟨by decide, rfl, by decide⟩

/-- The day-of-month produced by the civil decomposition respects the true
month length (including leap Februaries). -/
theorem civil_day_le_daysInMonth (z : Int) :
    civilDay z ≤ daysInMonth (civilYear z) (civilMonth z) := by
  obtain ⟨hz, hdoe0, hdoe1⟩ := era_doe_decomp z
  obtain ⟨hy0, hy399, hys, hdoy365, hleap⟩ :=
    yoe_correct (civilDoe z) (civilY0 z) (civilYoe z) ⟨hdoe0, hdoe1⟩ rfl rfl
  have hdoy0 : 0 ≤ civilDoy z := by simp only [civilDoy]; omega
  have hdoy1 : civilDoy z ≤ 365 := by simp only [civilDoy]; omega
  obtain ⟨hh, hm1, hm2, hd1, hd2, hiff, hsharp⟩ :=
    month_day_reconstruct (civilDoy z) (civilMp z) (civilDay z) (civilMonth z)
      hdoy0 hdoy1 rfl rfl rfl
  have hyr : civilYear z = if civilMonth z ≤ 2 then civilYoe z + civilEra z * 400 + 1
      else civilYoe z + civilEra z * 400 := rfl
  have hdoyd : civilDoy z = civilDoe z -
      (365 * civilYoe z + civilYoe z / 4 - civilYoe z / 100) := rfl
  have hday : civilDay z = civilDoy z - (153 * civilMp z + 2) / 5 + 1 := rfl
  have hmdef : civilMonth z = if civilMp z < 10 then civilMp z + 3 else civilMp z - 9 := rfl
  simp only [daysInMonth]
  split_ifs at hyr hmdef ⊢ <;> omega

/-- Epoch-day range of civil dates with years 0..9999 (month 1..12, day
1..31). -/
theorem daysFromCivil_bounds (y m d : Int) (hm1 : 1 ≤ m) (hm2 : m ≤ 12)
    (hd1 : 1 ≤ d) (hd2 : d ≤ 31) :
    (0 ≤ y → y ≤ 9999 → -719528 ≤ daysFromCivil y m d ∧ daysFromCivil y m d ≤ 2932896) ∧
    (y ≤ -1 → daysFromCivil y m d ≤ -719529) ∧
    (10000 ≤ y → 2932897 ≤ daysFromCivil y m d) := by
  simp only [daysFromCivil]
  split_ifs <;> omega

/-- On the JS-parseable range the civil year stays within 0..9999. -/
theorem civilYear_in_range (z : Int) (h0 : -719528 ≤ z) (h1 : z ≤ 2932896) :
    0 ≤ civilYear z ∧ civilYear z ≤ 9999 := by
  obtain ⟨hm1, hm2⟩ := civil_month_range z
  obtain ⟨hd1, hd2⟩ := civil_day_range z
  have hrt := days_civil_roundtrip z
  obtain ⟨hin, hneg, hbig⟩ := daysFromCivil_bounds (civilYear z) (civilMonth z) (civilDay z)
    hm1 hm2 hd1 hd2
  by_contra hcon
  rcases (by omega : civilYear z ≤ -1 ∨ 10000 ≤ civilYear z) with h | h
  · have := hneg h; omega
  · have := hbig h; omega

/-- Formatting an in-range epoch day and parsing it back recovers the day. -/
theorem parseIso_isoOfEpoch (z : Int) (h0 : -719528 ≤ z) (h1 : z ≤ 2932896) :
    parseIsoDate (isoOfEpoch z) = some z := by
  obtain ⟨hy0, hy1⟩ := civilYear_in_range z h0 h1
  obtain ⟨hm1, hm2⟩ := civil_month_range z
  obtain ⟨hd1, hd2⟩ := civil_day_range z
  have hdim := civil_day_le_daysInMonth z
  have hrt := days_civil_roundtrip z
  have hbr : isoOfEpoch z =
      ⟨pad4 (civilYear z).toNat ++
        ('-' :: pad2 (civilMonth z).toNat ++ '-' :: pad2 (civilDay z).toNat)⟩ := by
    simp only [isoOfEpoch, if_pos (⟨hy0, hy1⟩ : 0 ≤ civilYear z ∧ civilYear z ≤ 9999)]
  rw [hbr]
  obtain ⟨ha1, ha2, ha3⟩ := digit_facts ((civilYear z).toNat / 1000 % 10) (by omega)
  obtain ⟨hb1, hb2, hb3⟩ := digit_facts ((civilYear z).toNat / 100 % 10) (by omega)
  obtain ⟨hc1, hc2, hc3⟩ := digit_facts ((civilYear z).toNat / 10 % 10) (by omega)
  obtain ⟨hd1', hd2', hd3'⟩ := digit_facts ((civilYear z).toNat % 10) (by omega)
  obtain ⟨he1, he2, he3⟩ := digit_facts ((civilMonth z).toNat / 10 % 10) (by omega)
  obtain ⟨hf1, hf2, hf3⟩ := digit_facts ((civilMonth z).toNat % 10) (by omega)
  obtain ⟨hg1, hg2, hg3⟩ := digit_facts ((civilDay z).toNat / 10 % 10) (by omega)
  obtain ⟨hh1, hh2, hh3⟩ := digit_facts ((civilDay z).toNat % 10) (by omega)
  have hy : ((digitVal (digitChar ((civilYear z).toNat / 1000 % 10)) * 1000 +
      digitVal (digitChar ((civilYear z).toNat / 100 % 10)) * 100 +
      digitVal (digitChar ((civilYear z).toNat / 10 % 10)) * 10 +
      digitVal (digitChar ((civilYear z).toNat % 10)) : Nat) : Int) = civilYear z := by
    rw [ha2, hb2, hc2, hd2']; omega
  have hm : ((digitVal (digitChar ((civilMonth z).toNat / 10 % 10)) * 10 +
      digitVal (digitChar ((civilMonth z).toNat % 10)) : Nat) : Int) = civilMonth z := by
    rw [he2, hf2]; omega
  have hd : ((digitVal (digitChar ((civilDay z).toNat / 10 % 10)) * 10 +
      digitVal (digitChar ((civilDay z).toNat % 10)) : Nat) : Int) = civilDay z := by
    rw [hg2, hh2]; omega
  simp only [pad4, pad2, parseIsoDate, List.cons_append, List.nil_append]
  rw [if_pos (by exact ⟨ha1, hb1, hc1, hd1', trivial, he1, hf1, trivial, hg1, hh1⟩)]
  rw [hy, hm, hd]
  simp only [isoFields]
  rw [if_pos ⟨hm1, hm2, hd1, hdim⟩, hrt]

/-- `isoOfEpoch` is injective on the JS-parseable epoch range. -/
theorem isoOfEpoch_inj (z1 z2 : Int) (h1 : -719528 ≤ z1 ∧ z1 ≤ 2932896)
    (h2 : -719528 ≤ z2 ∧ z2 ≤ 2932896) (h : isoOfEpoch z1 = isoOfEpoch z2) : z1 = z2 := by
  have e1 := parseIso_isoOfEpoch z1 h1.1 h1.2
  have e2 := parseIso_isoOfEpoch z2 h2.1 h2.2
  rw [h, e2] at e1
  exact (Option.some.injEq _ _ ▸ e1).symm

theorem digitVal_le_of_isDigit (c : Char) (h : isDigitChar c = true) : digitVal c ≤ 9 := by
  simp only [isDigitChar, decide_eq_true_eq] at h
  simp only [digitVal]
  omega

/-- A successfully parsed date string lies in the JS-parseable epoch
window. -/
theorem parseIsoDate_range (s : String) (z : Int) (h : parseIsoDate s = some z) :
    -719528 ≤ z ∧ z ≤ 2932896 := by
  unfold parseIsoDate at h
  split at h
  case h_2 => exact absurd h (by simp)
  case h_1 _ =>
    rename_i y1 y2 y3 y4 g1 m1 m2 g2 d1 d2 heq
    unfold isoFields at h
    split_ifs at h with hdig hrange
    · obtain ⟨q1, q2, q3, q4, -, q5, q6, -, q7, q8⟩ := hdig
      have hv1 := digitVal_le_of_isDigit _ q1
      have hv2 := digitVal_le_of_isDigit _ q2
      have hv3 := digitVal_le_of_isDigit _ q3
      have hv4 := digitVal_le_of_isDigit _ q4
      have hy9 : ((digitVal y1 * 1000 + digitVal y2 * 100 + digitVal y3 * 10 +
          digitVal y4 : Nat) : Int) ≤ 9999 := by push_cast; omega
      obtain ⟨hb1, hb2, hb3, hb4⟩ := hrange
      have h31 : daysInMonth ((digitVal y1 * 1000 + digitVal y2 * 100 + digitVal y3 * 10 +
          digitVal y4 : Nat) : Int) ((digitVal m1 * 10 + digitVal m2 : Nat) : Int) ≤ 31 := by
        simp only [daysInMonth]
        split_ifs <;> omega
      obtain ⟨hin, -, -⟩ := daysFromCivil_bounds _ _ _ hb1 hb2 hb3 (by omega)
      obtain ⟨hlo, hhi⟩ := hin (by positivity) hy9
      simp only [Option.some.injEq] at h
      omega

/-! ## Weekdays and month indices -/

/-- JS `Date.prototype.getDay` for the UTC-midnight instant of epoch day `z`
(0 = Sunday .. 6 = Saturday); 1970-01-01 was a Thursday (4). -/
def weekday (z : Int) : Int := (z + 4) % 7

/-- The shift applied by the chart code
(`diff = getDate() - day + (day === 0 ? -6 : 1); setDate(diff)`):
moves an epoch day to the Monday on or before it. -/
def mondayOnOrBefore (z : Int) : Int :=
  z + (if weekday z = 0 then -6 else 1 - weekday z)

theorem mondayOnOrBefore_spec (z : Int) :
    weekday (mondayOnOrBefore z) = 1 ∧ mondayOnOrBefore z ≤ z ∧ z < mondayOnOrBefore z + 7 ∧
      (weekday z = 1 → mondayOnOrBefore z = z) := by
  simp only [mondayOnOrBefore, weekday]
  split_ifs <;> omega

theorem mondayOnOrBefore_add7 (z : Int) :
    mondayOnOrBefore (z + 7) = mondayOnOrBefore z + 7 := by
  simp only [mondayOnOrBefore, weekday]
  split_ifs <;> omega

/-- Linear month index `year * 12 + (month - 1)` of an epoch day (what the
monthly loop steps through via `setMonth(getMonth() + 1)`). -/
def monthIdx (z : Int) : Int := civilYear z * 12 + civilMonth z - 1

/-- Epoch day of the first of the month with linear index `mi`. -/
def monthFirstEpoch (mi : Int) : Int := daysFromCivil (mi / 12) (mi % 12 + 1) 1

theorem daysFromCivil_day_linear (y m d : Int) :
    daysFromCivil y m d = daysFromCivil y m 1 + d - 1 := by
  simp only [daysFromCivil]
  split_ifs <;> ring

/-- Stepping the month index forward by one advances the first-of-month epoch
day by one true month length. -/
theorem monthFirstEpoch_step (mi : Int) :
    monthFirstEpoch mi + 28 ≤ monthFirstEpoch (mi + 1) ∧
      monthFirstEpoch (mi + 1) ≤ monthFirstEpoch mi + 31 := by
  have h12 : (mi + 1) / 12 * 12 + (mi + 1) % 12 = mi + 1 := by omega
  have h12' : mi / 12 * 12 + mi % 12 = mi := by omega
  have hr : mi % 12 = 0 ∨ mi % 12 = 1 ∨ mi % 12 = 2 ∨ mi % 12 = 3 ∨ mi % 12 = 4 ∨
      mi % 12 = 5 ∨ mi % 12 = 6 ∨ mi % 12 = 7 ∨ mi % 12 = 8 ∨ mi % 12 = 9 ∨
      mi % 12 = 10 ∨ mi % 12 = 11 := by omega
  simp only [monthFirstEpoch, daysFromCivil]
  rcases hr with h | h | h | h | h | h | h | h | h | h | h | h <;> split_ifs <;> omega

theorem monthFirstEpoch_mono (a b : Int) (h : a ≤ b) :
    monthFirstEpoch a ≤ monthFirstEpoch b := by
  have key : ∀ n : Nat, ∀ x : Int, monthFirstEpoch x ≤ monthFirstEpoch (x + n) := by
    intro n
    induction n with
    | zero => intro x; simp
    | succ k ih =>
      intro x
      have h1 := ih x
      have h2 := (monthFirstEpoch_step (x + k)).1
      have hc : ((k + 1 : Nat) : Int) = (k : Int) + 1 := by push_cast; ring
      rw [hc, ← add_assoc]
      omega
  have hn : b = a + ((b - a).toNat : Int) := by omega
  rw [hn]
  exact key _ a

theorem monthIdx_div (z : Int) :
    monthIdx z / 12 = civilYear z ∧ monthIdx z % 12 + 1 = civilMonth z := by
  obtain ⟨h1, h2⟩ := civil_month_range z
  simp only [monthIdx]
  omega

theorem monthLen_feb (y : Int) :
    daysFromCivil y 3 1 = daysFromCivil y 2 1 + daysInMonth y 2 := by
  have hcase : (y - 1) / 400 = y / 400 ∨ (y - 1) / 400 + 1 = y / 400 := by omega
  simp only [daysFromCivil, daysInMonth]
  rcases hcase with h | h <;> split_ifs <;> omega

/-- Advancing to the next month moves the first-of-month epoch day by exactly
the number of days in the current month. -/
theorem monthLen_exact (y m : Int) (h1 : 1 ≤ m) (h2 : m ≤ 11) :
    daysFromCivil y (m + 1) 1 = daysFromCivil y m 1 + daysInMonth y m := by
  interval_cases m
  case _ => simp only [daysFromCivil, daysInMonth]; split_ifs <;> omega
  case _ => exact monthLen_feb y
  all_goals norm_num [daysInMonth]
  all_goals simp only [daysFromCivil]
  all_goals split_ifs <;> omega

theorem monthLen_december (y : Int) :
    daysFromCivil (y + 1) 1 1 = daysFromCivil y 12 1 + 31 := by
  simp only [daysFromCivil]
  split_ifs <;> omega

/-- Every epoch day lies between the first of its month and the first of the
next month. -/
theorem monthFirstEpoch_bracket (z : Int) :
    monthFirstEpoch (monthIdx z) ≤ z ∧ z < monthFirstEpoch (monthIdx z + 1) := by
  obtain ⟨hdiv, hmod⟩ := monthIdx_div z
  obtain ⟨hm1, hm2⟩ := civil_month_range z
  obtain ⟨hd1, -⟩ := civil_day_range z
  have hdim := civil_day_le_daysInMonth z
  have hrt := days_civil_roundtrip z
  have hlin := daysFromCivil_day_linear (civilYear z) (civilMonth z) (civilDay z)
  have hfirst : monthFirstEpoch (monthIdx z) = daysFromCivil (civilYear z) (civilMonth z) 1 := by
    simp only [monthFirstEpoch]
    rw [hdiv, hmod]
  constructor
  · omega
  · by_cases hm11 : civilMonth z ≤ 11
    · have hdiv2 : (monthIdx z + 1) / 12 = civilYear z ∧
          (monthIdx z + 1) % 12 + 1 = civilMonth z + 1 := by
        simp only [monthIdx]; omega
      have hnext : monthFirstEpoch (monthIdx z + 1) =
          daysFromCivil (civilYear z) (civilMonth z + 1) 1 := by
        simp only [monthFirstEpoch]
        rw [hdiv2.1, hdiv2.2]
      have hlen := monthLen_exact (civilYear z) (civilMonth z) hm1 hm11
      omega
    · have hdiv2 : (monthIdx z + 1) / 12 = civilYear z + 1 ∧ (monthIdx z + 1) % 12 + 1 = 1 := by
        simp only [monthIdx]; omega
      have hnext : monthFirstEpoch (monthIdx z + 1) =
          daysFromCivil (civilYear z + 1) 1 1 := by
        simp only [monthFirstEpoch]
        rw [hdiv2.1, hdiv2.2]
      have hlen := monthLen_december (civilYear z)
      have hd12 : daysInMonth (civilYear z) 12 = 31 := by norm_num [daysInMonth]
      have hm12 : civilMonth z = 12 := by omega
      rw [hm12] at hlin hdim hrt
      have hd12 : daysInMonth (civilYear z) 12 = 31 := by norm_num [daysInMonth]
      omega

/-- The monthly while-loop condition `first-of-month ≤ end` holds exactly for
month indices up to the end date's month. -/
theorem monthFirst_le_iff (z mi : Int) : monthFirstEpoch mi ≤ z ↔ mi ≤ monthIdx z := by
  constructor
  · intro h
    by_contra hc
    push_neg at hc
    have hmono := monthFirstEpoch_mono (monthIdx z + 1) mi (by omega)
    have hb := (monthFirstEpoch_bracket z).2
    omega
  · intro h
    have hmono := monthFirstEpoch_mono mi (monthIdx z) h
    have hb := (monthFirstEpoch_bracket z).1
    omega

/-! ## JS string and number primitives -/

/-- JS `String.prototype.includes` (substring containment), on char lists. -/
def charsContain (sub : List Char) : List Char → Bool
  | [] => sub.isEmpty
  | c :: cs => sub.isPrefixOf (c :: cs) || charsContain sub cs

/-- JS `s.includes(sub)`. -/
def jsIncludes (s sub : String) : Bool := charsContain sub.data s.data

/-- JS `s.toLowerCase()` (ASCII case folding; the Japanese labels used by the
parser are unaffected). -/
def jsToLower (s : String) : String := ⟨s.data.map Char.toLower⟩

/-- Whitespace skipped by JS `parseInt` / trimmed by `String.prototype.trim`
(ASCII subset; sufficient for the inputs modelled here). -/
def jsWhitespace (c : Char) : Bool :=
  c = ' ' ∨ c = '\t' ∨ c = '\n' ∨ c = '\r' ∨ c = '\x0b' ∨ c = '\x0c'

/-- `String.prototype.trim`. -/
def jsTrim (s : String) : String :=
  ⟨((s.data.dropWhile jsWhitespace).reverse.dropWhile jsWhitespace).reverse⟩

/-- `String.prototype.split` with a one-character separator (the source only
splits on `'\n'` and `','`): every occurrence splits, empty pieces kept,
`"".split(sep)` is `[""]`. -/
def splitChars (sep : Char) : List Char → List (List Char)
  | [] => [[]]
  | c :: cs =>
    match splitChars sep cs with
    | [] => if c = sep then [[], [c]] else [[c]]
    | w :: ws => if c = sep then [] :: w :: ws else (c :: w) :: ws

def jsSplit (s : String) (sep : Char) : List String :=
  (splitChars sep s.data).map (fun cs => ⟨cs⟩)

def decDigitsLoop (acc : Nat) : List Char → Nat × List Char
  | [] => (acc, [])
  | c :: cs =>
    if isDigitChar c then decDigitsLoop (acc * 10 + digitVal c) cs else (acc, c :: cs)

def isHexDigitChar (c : Char) : Bool :=
  decide ((48 ≤ c.toNat ∧ c.toNat ≤ 57) ∨ (97 ≤ c.toNat ∧ c.toNat ≤ 102) ∨
    (65 ≤ c.toNat ∧ c.toNat ≤ 70))

def hexVal (c : Char) : Nat :=
  if c.toNat ≤ 57 then c.toNat - 48 else if c.toNat ≤ 70 then c.toNat - 55 else c.toNat - 87

def hexDigitsLoop (acc : Nat) : List Char → Nat × List Char
  | [] => (acc, [])
  | c :: cs =>
    if isHexDigitChar c then hexDigitsLoop (acc * 16 + hexVal c) cs else (acc, c :: cs)

/-- Longest decimal-digit prefix; `none` when it is empty (JS `NaN`). -/
def decDigits (cs : List Char) : Option Nat :=
  match cs with
  | c :: _ => if isDigitChar c then some (decDigitsLoop 0 cs).1 else none
  | [] => none

def hexDigits (cs : List Char) : Option Nat :=
  match cs with
  | c :: _ => if isHexDigitChar c then some (hexDigitsLoop 0 cs).1 else none
  | [] => none

/-- Magnitude part of JS `parseInt(s)` with an undefined radix: an optional
`0x`/`0X` prefix selects base 16, otherwise base 10. -/
def parseIntMag (cs : List Char) : Option Nat :=
  match cs with
  | '0' :: c :: rest => if c = 'x' ∨ c = 'X' then hexDigits rest else decDigits ('0' :: c :: rest)
  | _ => decDigits cs

/-- JS `parseInt(s)` (radix argument omitted): skip leading whitespace, an
optional sign, then the longest digit prefix; `none` models `NaN`. -/
def parseIntJs (s : String) : Option Int :=
  let cs := s.data.dropWhile jsWhitespace
  match cs with
  | '-' :: rest => (parseIntMag rest).map (fun n => -(n : Int))
  | '+' :: rest => (parseIntMag rest).map (fun n => (n : Int))
  | _ => (parseIntMag cs).map (fun n => (n : Int))

/-- JS `String(n).padStart(2, '0')`. -/
def padStart2 (s : String) : String :=
  if s.length = 0 then "00" else if s.length = 1 then "0" ++ s else s

/-! ## Date-pattern matching in header cells (the three regexes of
`parsePascalCsv` and `validatePascalCsv`) -/

/-- `\d{4}` at the current position. -/
def take4Digits : List Char → Option (Nat × List Char)
  | a :: b :: c :: d :: rest =>
    if isDigitChar a ∧ isDigitChar b ∧ isDigitChar c ∧ isDigitChar d then
      some (((digitVal a * 10 + digitVal b) * 10 + digitVal c) * 10 + digitVal d, rest)
    else none
  | _ => none

def litChar (lit : Char) : List Char → Option (List Char)
  | c :: rest => if c = lit then some rest else none
  | [] => none

/-- `\d{1,2}` immediately followed by the literal `lit` (greedy, with the
regex backtracking from two digits to one). -/
def take1or2ThenLit (lit : Char) : List Char → Option (Nat × List Char)
  | a :: b :: c :: rest =>
    if isDigitChar a ∧ isDigitChar b ∧ c = lit then some (digitVal a * 10 + digitVal b, rest)
    else if isDigitChar a ∧ b = lit then some (digitVal a, c :: rest)
    else none
  | [a, b] => if isDigitChar a ∧ b = lit then some (digitVal a, []) else none
  | _ => none

/-- `\d{1,2}` with no following context (greedy). -/
def take1or2 : List Char → Option (Nat × List Char)
  | a :: b :: rest =>
    if isDigitChar a ∧ isDigitChar b then some (digitVal a * 10 + digitVal b, rest)
    else if isDigitChar a then some (digitVal a, b :: rest)
    else none
  | [a] => if isDigitChar a then some (digitVal a, []) else none
  | [] => none

/-- `/(\d{4})年(\d{1,2})月(\d{1,2})日/` anchored at the current position. -/
def tryJpDateAt (cs : List Char) : Option (Nat × Nat × Nat) := do
  let (y, r1) ← take4Digits cs
  let r2 ← litChar '年' r1
  let (m, r3) ← take1or2ThenLit '月' r2
  let (d, _) ← take1or2ThenLit '日' r3
  some (y, m, d)

/-- `/(\d{4})sep(\d{1,2})sep(\d{1,2})/` anchored at the current position. -/
def trySepDateAt (sep : Char) (cs : List Char) : Option (Nat × Nat × Nat) := do
  let (y, r1) ← take4Digits cs
  let r2 ← litChar sep r1
  let (m, r3) ← take1or2ThenLit sep r2
  let (d, _) ← take1or2 r3
  some (y, m, d)

/-- Leftmost regex match: try the matcher at every position, left to right. -/
def scanFor (f : List Char → Option (Nat × Nat × Nat)) : List Char → Option (Nat × Nat × Nat)
  | [] => f []
  | c :: cs =>
    match f (c :: cs) with
    | some v => some v
    | none => scanFor f cs

def matchJpDate (s : String) : Option (Nat × Nat × Nat) := scanFor tryJpDateAt s.data

def matchSlashDate (s : String) : Option (Nat × Nat × Nat) := scanFor (trySepDateAt '/') s.data

def matchDashDate (s : String) : Option (Nat × Nat × Nat) := scanFor (trySepDateAt '-') s.data

/-- `new Date(Date.UTC(year, month-1, day)).toISOString().split('T')[0]`:
`Date.UTC` maps two-digit years to 1900+y and normalises out-of-range month
and day fields by rolling over. -/
def mkUtcDateString (y m d : Nat) : String :=
  let y' : Int := if y ≤ 99 then (y : Int) + 1900 else (y : Int)
  let ym : Int := y' * 12 + ((m : Int) - 1)
  isoOfEpoch (daysFromCivil (ym / 12) (ym % 12 + 1) 1 + ((d : Int) - 1))

/-- The date-column detector of `parsePascalCsv`: the three patterns are
tried in a fixed order and the first match is normalised to `YYYY-MM-DD`. -/
def findDateInHeader (h : String) : Option String :=
  match matchJpDate h with
  | some (y, m, d) => some (mkUtcDateString y m d)
  | none =>
    match matchSlashDate h with
    | some (y, m, d) => some (mkUtcDateString y m d)
    | none =>
      match matchDashDate h with
      | some (y, m, d) => some (mkUtcDateString y m d)
      | none => none

/-- The date-column test of `validatePascalCsv` (`regex.test` with the same
three patterns). -/
def headerHasDate (h : String) : Bool :=
  (matchJpDate h).isSome || (matchSlashDate h).isSome || (matchDashDate h).isSome

/-! ## `pascalCsvParser` data model -/

structure PascalKeywordData where
  pascal_id : Int
  keyword_text : String
  monthly_search_volume : Option Int := none
  domain_url : Option String := none
  site_name : Option String := none
  rank_type : Option String := none
  area : Option String := none
  device_type : Option String := none
  landing_page : Option String := none
deriving DecidableEq, Repr

structure PascalRankingData where
  pascal_id : Int
  date : String
  rank : Int
deriving DecidableEq, Repr

structure PascalCsvData where
  keywords : List PascalKeywordData
  rankings : List PascalRankingData
deriving DecidableEq, Repr

/-- The nine fixed metadata fields resolved from the header row. -/
inductive CsvField
  | pascalId | keyword | searchVolume | domainUrl | siteName | rankType
  | area | deviceType | landingPage
deriving DecidableEq, Repr

def allCsvFields : List CsvField :=
  [.pascalId, .keyword, .searchVolume, .domainUrl, .siteName, .rankType,
    .area, .deviceType, .landingPage]

/-- The if/else-if chain applied to one header cell: the first field (in
chain order) whose label or alias occurs in the cell, if any. -/
def chainField (h : String) : Option CsvField :=
  let lower := jsToLower h
  if jsIncludes h "Pascal ID" || jsIncludes h "pascal id" then some .pascalId
  else if jsIncludes h "キーワード" || jsIncludes lower "keyword" then some .keyword
  else if jsIncludes h "月間検索数" || jsIncludes lower "search volume" then some .searchVolume
  else if jsIncludes h "ドメイン" || jsIncludes lower "domain" then some .domainUrl
  else if jsIncludes h "サイト名" || jsIncludes lower "site" then some .siteName
  else if jsIncludes h "順位取得" || jsIncludes lower "rank type" then some .rankType
  else if jsIncludes h "エリア" || jsIncludes lower "area" then some .area
  else if jsIncludes h "種別" || jsIncludes lower "device" then some .deviceType
  else if jsIncludes h "ランディング" || jsIncludes lower "landing" then some .landingPage
  else none

/-- One step of the `columnMap` construction: a matching header cell
assigns (overwrites) its field's index. -/
def columnStep (acc : CsvField → Option Nat) (p : Nat × String) : CsvField → Option Nat :=
  match chainField p.2 with
  | some f => fun f' => if f' = f then some p.1 else acc f'
  | none => acc

/-- `columnMap` construction: a `forEach` over the header cells. -/
def buildColumnMap (headers : List String) : CsvField → Option Nat :=
  headers.enum.foldl columnStep (fun _ => none)

/-- `Math.max(...Object.values(columnMap))` (all assigned indices are
non-negative, and the caller guarantees at least one is assigned). -/
def maxColIdx (cm : CsvField → Option Nat) : Nat :=
  (allCsvFields.filterMap cm).foldl max 0

/-- The `dateColumns` array: every header cell matching a date pattern, with
its normalised `YYYY-MM-DD` string. -/
def dateColumnsOf (headers : List String) : List (Nat × String) :=
  headers.enum.filterMap (fun (p : Nat × String) =>
    (findDateInHeader p.2).map (fun ds => (p.1, ds)))

/-- The per-date-cell logic of `parsePascalCsv`: a missing/empty or `"-"`
cell yields no fact; otherwise `parseInt`, and only a parse result `> 0`
yields a fact with that rank. -/
def cellFact (pid : Int) (date : String) (rankValue : String) : Option PascalRankingData :=
  if rankValue ≠ "" ∧ rankValue ≠ "-" then
    match parseIntJs rankValue with
    | some r => if r > 0 then some ⟨pid, date, r⟩ else none
    | none => none
  else none

/-- `values[idx] || undefined` for an optional fixed field. -/
def optField (values : List String) (idx : Option Nat) : Option String :=
  match idx with
  | none => none
  | some i => if values.getD i "" = "" then none else some (values.getD i "")

/-- One data row of `parsePascalCsv`: `none` models the three `continue`
branches (insufficient columns, unparseable Pascal ID, empty keyword);
otherwise one keyword record plus the facts of its date cells. -/
def parseRow (cm : CsvField → Option Nat) (maxIdx : Nat) (dateCols : List (Nat × String))
    (pidIdx kwIdx : Nat) (line : String) :
    Option (PascalKeywordData × List PascalRankingData) :=
  let values := (jsSplit line ',').map jsTrim
  if values.length < maxIdx + 1 then none
  else
    match parseIntJs (values.getD pidIdx "") with
    | none => none
    | some pid =>
      if values.getD kwIdx "" = "" then none
      else
        let kd : PascalKeywordData :=
          { pascal_id := pid
            keyword_text := values.getD kwIdx ""
            monthly_search_volume :=
              match cm .searchVolume with
              | some i =>
                if values.getD i "" ≠ "" ∧ values.getD i "" ≠ "-" then
                  parseIntJs (values.getD i "")
                else none
              | none => none
            domain_url := optField values (cm .domainUrl)
            site_name := optField values (cm .siteName)
            rank_type := optField values (cm .rankType)
            area := optField values (cm .area)
            device_type := optField values (cm .deviceType)
            landing_page := optField values (cm .landingPage) }
        some (kd, dateCols.filterMap (fun (p : Nat × String) => cellFact pid p.2 (values.getD p.1 "")))

/-- `parsePascalCsv` (the schema mapper and row parser); `Except.error`
models its two `throw new Error(...)` sites plus the short-input throw. -/
def parsePascalCsv (csvContent : String) : Except String PascalCsvData :=
  let lines := jsSplit (jsTrim csvContent) '\n'
  if lines.length < 2 then .error "CSV must contain at least header and one data row"
  else
    let headers := (jsSplit (lines.headD "") ',').map jsTrim
    let cm := buildColumnMap headers
    let dateColumns := dateColumnsOf headers
    match cm .pascalId, cm .keyword with
    | some pidIdx, some kwIdx =>
      if dateColumns.length = 0 then .error "No date columns found in CSV"
      else
        let parsed := lines.tail.filterMap (parseRow cm (maxColIdx cm) dateColumns pidIdx kwIdx)
        .ok ⟨parsed.map (·.1), (parsed.map (·.2)).flatten⟩
    | _, _ => .error "CSV must contain Pascal ID and キーワード columns"

/-- `validatePascalCsv`: returns `(isValid, errors)`. -/
def validatePascalCsv (csvContent : String) : Bool × List String :=
  let lines := jsSplit (jsTrim csvContent) '\n'
  if lines.length < 2 then (false, ["CSV must contain at least header and one data row"])
  else
    let headers := (jsSplit (lines.headD "") ',').map jsTrim
    let hasPascalId := headers.any (fun h => jsIncludes h "Pascal ID" || jsIncludes h "pascal id")
    let hasKeyword :=
      headers.any (fun h => jsIncludes h "キーワード" || jsIncludes (jsToLower h) "keyword")
    let dateCount := (headers.filter headerHasDate).length
    let headerErrs :=
      (if hasPascalId then [] else ["CSV must contain Pascal ID column"]) ++
      (if hasKeyword then [] else ["CSV must contain キーワード column"]) ++
      (if dateCount = 0 then ["CSV must contain date columns (format: YYYY年M月D日)"] else [])
    let sampleRows := (lines.tail).take 3
    let rowErrs := sampleRows.enum.filterMap (fun (p : Nat × String) =>
      if 2 * (jsSplit p.2 ',').length < headers.length then
        some ("Row " ++ toString (p.1 + 2) ++ ": Insufficient data")
      else none)
    let errors := headerErrs ++ rowErrs
    (errors.isEmpty, errors)

/-! ## Persistence store and the import orchestrator (`pascalSupabase`) -/

/-- Modelled from the spec: §6 Persistence Gateway (external collaborator,
Supabase).  `keywords` is the `pascal_keywords` table — rows `(surrogate id,
row data)` upserted with `onConflict: 'pascal_id'` (insert-or-overwrite
scalars, surrogate id assigned on first insert and stable thereafter);
`rankings` is the `pascal_daily_rankings` table — rows keyed by
`(pascal_keyword_id, date)` upserted with insert-or-replace-rank semantics.
Gateway calls always succeed in this model (network failures are external
nondeterminism). -/
structure Store where
  nextId : Nat
  keywords : List (Nat × PascalKeywordData)
  rankings : List ((Nat × String) × Int)
deriving DecidableEq, Repr

def emptyStore : Store := ⟨0, [], []⟩

/-- `pascalKeywordService.upsert`: insert-or-overwrite keyed on `pascal_id`,
returning the row's surrogate id. -/
def upsertKeyword (s : Store) (k : PascalKeywordData) : Store × Nat :=
  match s.keywords.find? (fun e => e.2.pascal_id == k.pascal_id) with
  | some e =>
    ({ s with keywords :=
        s.keywords.map (fun e' => if e'.2.pascal_id == k.pascal_id then (e'.1, k) else e') },
      e.1)
  | none => ({ s with nextId := s.nextId + 1, keywords := s.keywords ++ [(s.nextId, k)] }, s.nextId)

/-- One row of `pascalRankingService.bulkUpsertRankings`: insert-or-replace
keyed on `(pascal_keyword_id, date)`. -/
def upsertRanking (s : Store) (key : Nat × String) (r : Int) : Store :=
  if s.rankings.any (fun e => e.1 == key) then
    { s with rankings := s.rankings.map (fun e => if e.1 == key then (e.1, r) else e) }
  else { s with rankings := s.rankings ++ [(key, r)] }

/-- JS `Map.prototype.set` on the `keywordIdMap`. -/
def mapSet (m : List (Int × Nat)) (k : Int) (v : Nat) : List (Int × Nat) :=
  if m.any (fun e => e.1 == k) then m.map (fun e => if e.1 == k then (k, v) else e)
  else m ++ [(k, v)]

/-- JS `Map.prototype.get`. -/
def mapGet (m : List (Int × Nat)) (k : Int) : Option Nat :=
  (m.find? (fun e => e.1 == k)).map (·.2)

/-- The keyword-import stage: upsert each parsed keyword and record
`pascal_id ↦ surrogate id`.  The JS code batches 50 at a time with
`Promise.all`; gateway calls are sequentialised here in list order (all
succeed in the store model, so the error list stays empty). -/
def runKeywords : Store → List PascalKeywordData → List (Int × Nat) → Store × List (Int × Nat)
  | s, [], m => (s, m)
  | s, k :: rest, m =>
    let t := upsertKeyword s k
    runKeywords t.1 rest (mapSet m k.pascal_id t.2)

/-- `rankingsByKeyword`: group parsed facts by `pascal_id`, preserving first
occurrence order of keys and row order within each group. -/
def addToGroup (gs : List (Int × List PascalRankingData)) (r : PascalRankingData) :
    List (Int × List PascalRankingData) :=
  if gs.any (fun g => g.1 == r.pascal_id) then
    gs.map (fun g => if g.1 == r.pascal_id then (g.1, g.2 ++ [r]) else g)
  else gs ++ [(r.pascal_id, [r])]

def groupRankings (rs : List PascalRankingData) : List (Int × List PascalRankingData) :=
  rs.foldl addToGroup []

/-- The ranking-import stage: per keyword group, look up the surrogate id
(adding an error and skipping if absent) and upsert each fact.  The JS code
chunks each group into batches of 100 and upserts the batches sequentially;
a sequential fold over the group has the same effect on the store. -/
def runRankings : Store → List (Int × Nat) → List (Int × List PascalRankingData) →
    Store × Nat × List String
  | s, _, [] => (s, 0, [])
  | s, m, g :: gs =>
    match mapGet m g.1 with
    | none =>
      let t := runRankings s m gs
      (t.1, t.2.1,
        ("Keyword not found for Pascal ID " ++ toString g.1 ++ ", skipping rankings") :: t.2.2)
    | some uid =>
      let s' := g.2.foldl (fun acc r => upsertRanking acc (uid, r.date) r.rank) s
      let t := runRankings s' m gs
      (t.1, t.2.1 + g.2.length, t.2.2)

structure PascalImportResult where
  success : Bool
  totalKeywords : Nat
  importedKeywords : Nat
  updatedKeywords : Nat
  totalRankings : Nat
  importedRankings : Nat
  errors : List String
  summary : String
deriving DecidableEq, Repr

def emptyResult : PascalImportResult :=
  { success := false, totalKeywords := 0, importedKeywords := 0, updatedKeywords := 0,
    totalRankings := 0, importedRankings := 0, errors := [], summary := "" }

def mkSummary (ik tk ir tr : Nat) : String :=
  "Keywords: " ++ toString ik ++ "/" ++ toString tk ++ ", Rankings: " ++ toString ir ++ "/" ++
    toString tr

/-- The body of `importPascalCsv`'s `try` block; `.error` is a throw that
would escape to the surrounding `catch` (only `parsePascalCsv` throws in the
model — gateway calls always succeed). -/
def importPascalCsvBody (store : Store) (csv : String) :
    Except String (Store × PascalImportResult) :=
  let v := validatePascalCsv csv
  if v.1 = false then .ok (store, { emptyResult with errors := v.2 })
  else
    match parsePascalCsv csv with
    | .error e => .error e
    | .ok csvData =>
      if csvData.keywords.length = 0 then
        .ok (store,
          { emptyResult with
              totalKeywords := csvData.keywords.length
              totalRankings := csvData.rankings.length
              errors := ["No valid keywords found in CSV"] })
      else
        let t1 := runKeywords store csvData.keywords []
        let t2 := runRankings t1.1 t1.2 (groupRankings csvData.rankings)
        .ok (t2.1,
          { success := t2.2.2.isEmpty
            totalKeywords := csvData.keywords.length
            importedKeywords := csvData.keywords.length
            updatedKeywords := 0
            totalRankings := csvData.rankings.length
            importedRankings := t2.2.1
            errors := t2.2.2
            summary := mkSummary csvData.keywords.length csvData.keywords.length t2.2.1
              csvData.rankings.length })

/-- `importPascalCsv`: the whole body runs inside `try { ... } catch`, and
the catch converts any thrown error into a structured result, leaving the
store untouched by that point's remaining stages. -/
def importPascalCsv (store : Store) (csv : String) : Store × PascalImportResult :=
  match importPascalCsvBody store csv with
  | .ok r => r
  | .error e => (store, { emptyResult with errors := ["Import failed: " ++ e] })

/-! ## RankChart aggregation -/

/-- One chart input point (`types.ts` `RankingData`): an ISO date string and
a rank. -/
structure RankingData where
  date : String
  rank : Int
deriving DecidableEq, Repr

inductive TimeAggregation
  | daily | weekly | monthly
deriving DecidableEq, Repr

structure AggregatedData where
  date : String
  rank : Option Int
  avgRank : Int
  minRank : Int
  maxRank : Int
  dataPoints : Nat
  isOutOfRange : Bool
deriving DecidableEq, Repr

/-- `new Date(s).getTime()` in days.  Unparseable strings default to epoch 0
here; every theorem below hypothesises parseability, where the model is
exact (real JS would produce `NaN`/Invalid Date). -/
def epochD (s : String) : Int := (parseIsoDate s).getD 0

/-- Stable insertion used to model the (stable) JS `Array.prototype.sort`
with comparator `new Date(a.date) - new Date(b.date)`. -/
def insertByKey (x : RankingData) : List RankingData → List RankingData
  | [] => [x]
  | y :: ys => if epochD x.date ≤ epochD y.date then x :: y :: ys else y :: insertByKey x ys

def sortRankings (l : List RankingData) : List RankingData := l.foldr insertByKey []

/-- `dataMap.get(date)`: the map is built by `set`ting every item in order,
so the last item with a given date wins. -/
def lastWithDate (l : List RankingData) (date : String) : Option RankingData :=
  l.reverse.find? (fun it => it.date == date)

def sentinelPoint (date : String) : AggregatedData :=
  { date := date, rank := none, avgRank := 101, minRank := 101, maxRank := 101,
    dataPoints := 0, isOutOfRange := true }

/-- `generateDateRange`: push every day from `s` through `e` (inclusive),
stepping with `setDate(getDate() + 1)`. -/
def generateDateRangeAux : Nat → Int → Int → List String
  | 0, _, _ => []
  | n + 1, s, e => if s ≤ e then isoOfEpoch s :: generateDateRangeAux n (s + 1) e else []

def generateDateRange (s e : Int) : List String :=
  generateDateRangeAux (e + 1 - s).toNat s e

/-- The weekly branch of `generatePeriodRange`: starting from the Monday
on/before the range start (the caller passes that), push and step 7 days
while within the end date. -/
def weeklyPeriodsAux : Nat → Int → Int → List String
  | 0, _, _ => []
  | n + 1, cur, e => if cur ≤ e then isoOfEpoch cur :: weeklyPeriodsAux n (cur + 7) e else []

def weeklyPeriods (cur e : Int) : List String :=
  weeklyPeriodsAux ((e - cur) / 7 + 1).toNat cur e

/-- `${current.getFullYear()}-${String(current.getMonth() + 1).padStart(2, '0')}-01`
for the first of the month with linear index `mi`. -/
def monthKeyOfIdx (mi : Int) : String :=
  toString (mi / 12) ++ "-" ++ padStart2 (toString (mi % 12 + 1)) ++ "-01"

/-- The monthly branch of `generatePeriodRange`: from the first of the start
month, push the month key and step `setMonth(getMonth() + 1)` while the
first-of-month is within the end date. -/
def monthlyPeriodsAux : Nat → Int → Int → List String
  | 0, _, _ => []
  | n + 1, mi, e =>
    if monthFirstEpoch mi ≤ e then monthKeyOfIdx mi :: monthlyPeriodsAux n (mi + 1) e else []

def monthlyPeriods (mi e : Int) : List String :=
  monthlyPeriodsAux (monthIdx e + 1 - mi).toNat mi e

/-- Weekly group key of a fact date: ISO string of the Monday on/before. -/
def groupKeyWeekly (dateStr : String) : String := isoOfEpoch (mondayOnOrBefore (epochD dateStr))

/-- Monthly group key of an epoch day, exactly as the JS template literal
builds it from `getFullYear()`/`getMonth()`. -/
def monthKeyOf (z : Int) : String :=
  toString (civilYear z) ++ "-" ++ padStart2 (toString (civilMonth z)) ++ "-01"

def groupKeyMonthly (dateStr : String) : String := monthKeyOf (epochD dateStr)

theorem monthKeyOf_eq_idx (z : Int) : monthKeyOf z = monthKeyOfIdx (monthIdx z) := by
  obtain ⟨h1, h2⟩ := monthIdx_div z
  simp only [monthKeyOf, monthKeyOfIdx]
  rw [h1, h2]

def sumRanks (rs : List Int) : Int := rs.foldl (· + ·) 0

/-- `Math.round(p / q)` for integers with `q > 0`: `⌊p/q + 1/2⌋`.  Exact for
the magnitudes reachable here (IEEE double rounding cannot shift the result
while `|p| * q` is far below `2^52`). -/
def jsRoundDiv (p q : Int) : Int := (2 * p + q) / (2 * q)

def listMinD (rs : List Int) : Int :=
  match rs with
  | [] => 101
  | r :: rest => rest.foldl min r

def listMaxD (rs : List Int) : Int :=
  match rs with
  | [] => 101
  | r :: rest => rest.foldl max r

/-- The weekly/monthly point constructor: the group of a period key holds
the sorted facts whose group key equals it (that is what the `groups` map
accumulates); an empty group produces the sentinel point. -/
def mkGroupPoint (gk : String → String) (sorted : List RankingData) (periodKey : String) :
    AggregatedData :=
  let groupData := sorted.filter (fun it => gk it.date == periodKey)
  if groupData.isEmpty then sentinelPoint periodKey
  else
    let ranks := groupData.map (·.rank)
    let avg := jsRoundDiv (sumRanks ranks) ranks.length
    { date := periodKey, rank := some avg, avgRank := avg, minRank := listMinD ranks,
      maxRank := listMaxD ranks, dataPoints := ranks.length, isOutOfRange := false }

/-- JS truthiness of the optional `startDate`/`endDate` props (undefined or
`""` are falsy). -/
def jsStrTruthy (o : Option String) : Option String :=
  o.bind (fun s => if s = "" then none else some s)

/-- The daily point for one date of the range: the map lookup hits the last
fact with that date, else the sentinel. -/
def dailyPoint (sorted : List RankingData) (date : String) : AggregatedData :=
  match lastWithDate sorted date with
  | some it =>
    { date := it.date, rank := some it.rank, avgRank := it.rank, minRank := it.rank,
      maxRank := it.rank, dataPoints := 1, isOutOfRange := false }
  | none => sentinelPoint date

/-- `aggregatedData` of `RankChart`. -/
def aggregatedData (data : List RankingData) (aggregation : TimeAggregation)
    (startDate endDate : Option String) : List AggregatedData :=
  let sortedData := sortRankings data
  let range? : Option (Int × Int) :=
    match jsStrTruthy startDate, jsStrTruthy endDate with
    | some s, some e => some (epochD s, epochD e)
    | _, _ =>
      if sortedData.isEmpty then none
      else some (epochD ((sortedData.headD ⟨"", 0⟩).date),
        epochD ((sortedData.getLastD ⟨"", 0⟩).date))
  match range? with
  | none => []
  | some (zs, ze) =>
    match aggregation with
    | .daily => (generateDateRange zs ze).map (dailyPoint sortedData)
    | .weekly => (weeklyPeriods (mondayOnOrBefore zs) ze).map (mkGroupPoint groupKeyWeekly sortedData)
    | .monthly => (monthlyPeriods (monthIdx zs) ze).map (mkGroupPoint groupKeyMonthly sortedData)

/-- The upper end of the Y-axis domain: either the literal `'auto'` or a
number. -/
inductive YUpper
  | auto | val (n : Int)
deriving DecidableEq, Repr

/-- `yAxisDomain` of `RankChart`. -/
def yAxisDomain (pts : List AggregatedData) : Int × YUpper :=
  if pts.isEmpty then (1, .auto)
  else
    let validRanks := (pts.filter (fun p => !p.isOutOfRange && p.rank.isSome)).filterMap (·.rank)
    if validRanks.isEmpty then (1, .val 100)
    else (1, .val (listMaxD validRanks + 5))

/-! ## Structure of the generated bucket sequences -/

theorem generateDateRange_eq (s e : Int) :
    generateDateRange s e =
      (List.range (e + 1 - s).toNat).map (fun i : Nat => isoOfEpoch (s + (i : Int))) := by
  rw [generateDateRange]
  generalize hn : (e + 1 - s).toNat = n
  induction n generalizing s with
  | zero => simp [generateDateRangeAux]
  | succ k ih =>
    have hse : s ≤ e := by omega
    have hk : (e + 1 - (s + 1)).toNat = k := by omega
    rw [generateDateRangeAux, if_pos hse, ih (s + 1) hk, List.range_succ_eq_map]
    simp only [List.map_cons, List.map_map, Nat.cast_zero, add_zero, List.cons.injEq]
    refine ⟨trivial, ?_⟩
    apply List.map_congr_left
    intro i _
    simp only [Function.comp_apply]
    congr 1
    push_cast
    ring

theorem weeklyPeriods_eq (c e : Int) :
    weeklyPeriods c e =
      (List.range ((e - c) / 7 + 1).toNat).map (fun i : Nat => isoOfEpoch (c + 7 * (i : Int))) := by
  rw [weeklyPeriods]
  generalize hn : ((e - c) / 7 + 1).toNat = n
  induction n generalizing c with
  | zero => simp [weeklyPeriodsAux]
  | succ k ih =>
    have hce : c ≤ e := by omega
    have hk : ((e - (c + 7)) / 7 + 1).toNat = k := by omega
    rw [weeklyPeriodsAux, if_pos hce, ih (c + 7) hk, List.range_succ_eq_map]
    simp only [List.map_cons, List.map_map, Nat.cast_zero, mul_zero, add_zero, List.cons.injEq]
    refine ⟨trivial, ?_⟩
    apply List.map_congr_left
    intro i _
    simp only [Function.comp_apply]
    congr 1
    push_cast
    ring

theorem monthlyPeriods_eq (mi e : Int) :
    monthlyPeriods mi e =
      (List.range (monthIdx e + 1 - mi).toNat).map (fun i : Nat => monthKeyOfIdx (mi + (i : Int))) := by
  rw [monthlyPeriods]
  generalize hn : (monthIdx e + 1 - mi).toNat = n
  induction n generalizing mi with
  | zero => simp [monthlyPeriodsAux]
  | succ k ih =>
    have hle : monthFirstEpoch mi ≤ e := by rw [monthFirst_le_iff]; omega
    have hk : (monthIdx e + 1 - (mi + 1)).toNat = k := by omega
    rw [monthlyPeriodsAux, if_pos hle, ih (mi + 1) hk, List.range_succ_eq_map]
    simp only [List.map_cons, List.map_map, Nat.cast_zero, add_zero, List.cons.injEq]
    refine ⟨trivial, ?_⟩
    apply List.map_congr_left
    intro i _
    simp only [Function.comp_apply]
    congr 1
    push_cast
    ring

/-! ## Generic helpers for the claim theorems -/

instance {ε α : Type} [DecidableEq ε] [DecidableEq α] : DecidableEq (Except ε α)
  | .error e, .error f => decidable_of_iff (e = f) (by simp)
  | .error _, .ok _ => isFalse (by simp)
  | .ok _, .error _ => isFalse (by simp)
  | .ok a, .ok b => decidable_of_iff (a = b) (by simp)

theorem length_filterMap_eq_countP {α β : Type} (f : α → Option β) (l : List α) :
    (l.filterMap f).length = l.countP (fun a => (f a).isSome) := by
  induction l with
  | nil => rfl
  | cons a l ih =>
    cases hfa : f a <;> simp [List.filterMap_cons, hfa, List.countP_cons, ih]

theorem insertByKey_perm (x : RankingData) (l : List RankingData) :
    (insertByKey x l).Perm (x :: l) := by
  induction l with
  | nil => exact List.Perm.refl _
  | cons y ys ih =>
    simp only [insertByKey]
    split_ifs
    · exact List.Perm.refl _
    · exact (ih.cons y).trans (List.Perm.swap x y ys)

theorem sortRankings_perm (l : List RankingData) : (sortRankings l).Perm l := by
  induction l with
  | nil => exact List.Perm.refl _
  | cons a l ih => exact (insertByKey_perm a (sortRankings l)).trans (ih.cons a)

theorem mem_sortRankings (x : RankingData) (l : List RankingData) :
    x ∈ sortRankings l ↔ x ∈ l :=
  (sortRankings_perm l).mem_iff

theorem lastWithDate_date (l : List RankingData) (d : String) (it : RankingData)
    (h : lastWithDate l d = some it) : it.date = d := by
  simp only [lastWithDate] at h
  have := List.find?_some h
  simpa using this

theorem lastWithDate_mem (l : List RankingData) (d : String) (it : RankingData)
    (h : lastWithDate l d = some it) : it ∈ l := by
  simp only [lastWithDate] at h
  have := List.mem_of_find?_eq_some h
  simpa using this

/-! ## C9: the Y-axis domain -/

/-- C9 (counterexample): on an empty point list `yAxisDomain` returns
`[1, 'auto']`, not `[1, 100]` — the spec's claim that the fallback for "no
valid data points" is `[1, 100]` does not cover the empty-list case, which
hits the earlier `'auto'` branch. -/
theorem yAxisDomain_empty_counterexample :
    yAxisDomain [] = (1, YUpper.auto) ∧ yAxisDomain [] ≠ (1, YUpper.val 100) := by
  constructor
  · rfl
  · decide

/-- C9 (amended): for a non-empty point list, the upper bound is `100` when
no in-range point carries a rank, and otherwise `5` above the maximum of the
in-range ranks; the lower bound is always `1`.  (For the empty list the
result is `[1, 'auto']`, see the counterexample.) -/
theorem yAxisDomain_spec (pts : List AggregatedData) (h : pts ≠ []) :
    yAxisDomain pts =
      (1,
        if ((pts.filter (fun p => !p.isOutOfRange && p.rank.isSome)).filterMap
            (fun p => p.rank)).isEmpty then
          YUpper.val 100
        else
          YUpper.val
            (listMaxD
              ((pts.filter (fun p => !p.isOutOfRange && p.rank.isSome)).filterMap
                (fun p => p.rank)) + 5)) := by
  simp only [yAxisDomain]
  split_ifs with h1 h2
  all_goals first
    | exact absurd (List.isEmpty_iff.mp h1) h
    | rfl

/-- C9 (witness): the running example — ranks 3 and 45 on 2025-01-01 and
2025-01-04, two sentinel gap days — yields the domain `[1, 50]`. -/
theorem yAxisDomain_spec_witness :
    yAxisDomain (aggregatedData [⟨"2025-01-01", 3⟩, ⟨"2025-01-04", 45⟩] .daily
      (some "2025-01-01") (some "2025-01-04")) = (1, YUpper.val 50) := by
  have h := yAxisDomain_spec (aggregatedData [⟨"2025-01-01", 3⟩, ⟨"2025-01-04", 45⟩] .daily
    (some "2025-01-01") (some "2025-01-04")) (by decide)
  rw [h]
  decide

/-! ## C7: column resolution -/

/-- The index of the last header cell that the if/else-if chain resolves to
field `f` (the claim, by contrast, says the first such cell wins). -/
def lastMatchIdx (headers : List String) (f : CsvField) : Option Nat :=
  ((headers.enum.filter (fun p => chainField p.2 == some f)).getLast?).map (fun p => p.1)

theorem columnStep_foldl (l : List (Nat × String)) (acc : CsvField → Option Nat)
    (f : CsvField) :
    l.foldl columnStep acc f =
      match (l.filter (fun p => chainField p.2 == some f)).getLast? with
      | some p => some p.1
      | none => acc f := by
  induction l generalizing acc with
  | nil => rfl
  | cons p rest ih =>
    simp only [List.foldl_cons]
    rw [ih]
    cases hcf : chainField p.2 with
    | none =>
      have hfilt : (p :: rest).filter (fun q => chainField q.2 == some f) =
          rest.filter (fun q => chainField q.2 == some f) := by
        simp [List.filter_cons, hcf]
      rw [hfilt]
      simp only [columnStep, hcf]
    | some g =>
      by_cases hgf : g = f
      · subst hgf
        have hfilt : (p :: rest).filter (fun q => chainField q.2 == some g) =
            p :: rest.filter (fun q => chainField q.2 == some g) := by
          simp [List.filter_cons, hcf]
        rw [hfilt]
        cases hrest : rest.filter (fun q => chainField q.2 == some g) with
        | nil => simp [columnStep, hcf]
        | cons x xs =>
          rw [List.getLast?_cons_cons]
          cases hg : (x :: xs).getLast? with
          | none => simp at hg
          | some q => rfl
      · have hfilt : (p :: rest).filter (fun q => chainField q.2 == some f) =
            rest.filter (fun q => chainField q.2 == some f) := by
          simp [List.filter_cons, hcf, hgf]
        rw [hfilt]
        simp only [columnStep, hcf]
        cases (rest.filter (fun q => chainField q.2 == some f)).getLast? with
        | none => simp [if_neg (Ne.symm hgf)]
        | some q => rfl

/-- C7 (amended): when several header cells resolve to the same field, the
`columnMap` holds the index of the LAST matching cell, not the first — each
later match overwrites the earlier assignment. -/
theorem columnMap_last_match (headers : List String) (f : CsvField) :
    buildColumnMap headers f = lastMatchIdx headers f := by
  rw [buildColumnMap, columnStep_foldl, lastMatchIdx]
  cases (headers.enum.filter (fun p => chainField p.2 == some f)).getLast? with
  | none => rfl
  | some q => rfl

/-- C7 (counterexample): with two headers both matching `Pascal ID`, the
resolved identifier column is index 1 (the last match), so the parsed
`pascal_id` comes from the second column — the spec's "first matching column
wins" predicts index 0 and `pascal_id = 7`. -/
theorem columnMap_first_match_counterexample :
    buildColumnMap ["Pascal ID", "Pascal ID 2", "キーワード", "2025年1月1日"] .pascalId =
        some 1 ∧
    chainField "Pascal ID" = some .pascalId ∧
    (parsePascalCsv "Pascal ID,Pascal ID 2,キーワード,2025年1月1日\n7,8,foo,5").map
        (fun d => d.keywords.map (fun k => k.pascal_id)) = .ok [8] := by
  refine ⟨by decide, by decide, by decide⟩

/-! ## C6: how many keyword entities a parse produces -/

/-- The count C6 predicts, modelled from the claim's wording: data rows
whose identifier cell parses as an integer and whose keyword-text cell is
non-empty (NO row-width condition).  Used only for comparison with the
parser. -/
def claimedKeywordCount (csv : String) : Nat :=
  let lines := jsSplit (jsTrim csv) '\n'
  let headers := (jsSplit (lines.headD "") ',').map jsTrim
  let cm := buildColumnMap headers
  match cm .pascalId, cm .keyword with
  | some pidIdx, some kwIdx =>
    (lines.tail.filter (fun line =>
      let values := (jsSplit line ',').map jsTrim
      (parseIntJs (values.getD pidIdx "")).isSome && !(values.getD kwIdx "" == ""))).length
  | _, _ => 0

/-- The actual row admission test of the parser: the row must ALSO have at
least `maxColIdx + 1` cells. -/
def rowEmits (maxIdx pidIdx kwIdx : Nat) (line : String) : Bool :=
  let values := (jsSplit line ',').map jsTrim
  !(decide (values.length < maxIdx + 1)) &&
    (parseIntJs (values.getD pidIdx "")).isSome && !(values.getD kwIdx "" == "")

theorem parseRow_isSome (cm : CsvField → Option Nat) (maxIdx : Nat)
    (dateCols : List (Nat × String)) (pidIdx kwIdx : Nat) (line : String) :
    (parseRow cm maxIdx dateCols pidIdx kwIdx line).isSome =
      rowEmits maxIdx pidIdx kwIdx line := by
  by_cases h1 : (jsSplit line ',').length < maxIdx + 1
  · simp [parseRow, rowEmits, h1]
  · cases h2 : parseIntJs ((Option.map jsTrim (jsSplit line ',')[pidIdx]?).getD "") with
    | none => simp [parseRow, rowEmits, h1, h2]
    | some pid =>
      by_cases h3 : (Option.map jsTrim (jsSplit line ',')[kwIdx]?).getD "" = ""
      · simp [parseRow, rowEmits, h1, h2, h3]
      · simp [parseRow, rowEmits, h1, h2, h3]

/-- C6 (counterexample): a two-cell data row under a four-column header
whose `landing` column pushes `maxColIdx` to 2.  The identifier cell parses
and the keyword cell is non-empty, so the claim counts 1 entity, but the
parser's row-width guard (`values.length < maxColIdx + 1 → continue`) skips
the row and produces 0. -/
theorem keyword_count_counterexample :
    (parsePascalCsv "Pascal ID,keyword,landing,2025年1月1日\n7,foo").map
        (fun d => d.keywords.length) = .ok 0 ∧
    claimedKeywordCount "Pascal ID,keyword,landing,2025年1月1日\n7,foo" = 1 := by
  refine ⟨by decide, by decide⟩

/-- C6 (amended): the number of parsed keyword entities equals the number of
data rows that (a) have at least `maxColIdx + 1` cells, (b) whose identifier
cell parses as an integer, and (c) whose keyword-text cell is non-empty —
condition (a) is missing from the claim. -/
theorem parsed_keyword_count (csv : String) (d : PascalCsvData)
    (h : parsePascalCsv csv = .ok d) :
    ∃ pidIdx kwIdx : Nat,
      buildColumnMap ((jsSplit ((jsSplit (jsTrim csv) '\n').headD "") ',').map jsTrim)
          .pascalId = some pidIdx ∧
      buildColumnMap ((jsSplit ((jsSplit (jsTrim csv) '\n').headD "") ',').map jsTrim)
          .keyword = some kwIdx ∧
      d.keywords.length =
        (jsSplit (jsTrim csv) '\n').tail.countP
          (rowEmits
            (maxColIdx (buildColumnMap
              ((jsSplit ((jsSplit (jsTrim csv) '\n').headD "") ',').map jsTrim)))
            pidIdx kwIdx) := by
  simp only [parsePascalCsv] at h
  by_cases hlen : (jsSplit (jsTrim csv) '\n').length < 2
  · rw [if_pos hlen] at h
    exact Except.noConfusion h
  · rw [if_neg hlen] at h
    split at h
    case _ pidIdx kwIdx hp hk =>
      split at h
      case _ => exact Except.noConfusion h
      case _ =>
        injection h with h
        subst h
        refine ⟨pidIdx, kwIdx, hp, hk, ?_⟩
        simp only [List.map_map]
        rw [List.length_map, length_filterMap_eq_countP]
        exact List.countP_congr (fun line _ => by rw [parseRow_isSome])
    case _ => exact Except.noConfusion h

/-- Concrete CSV for the C6 witness: one admissible row, one row whose
identifier cell does not parse. -/
def c6csv : String := "Pascal ID,キーワード,2025年1月1日\n7,foo,5\nx,bar,3"

def c6data : PascalCsvData :=
  ⟨[⟨7, "foo", none, none, none, none, none, none, none⟩], [⟨7, "2025-01-01", 5⟩]⟩

/-- C6 (witness): the amended count theorem applied to `c6csv`. -/
theorem parsed_keyword_count_witness :
    ∃ pidIdx kwIdx : Nat,
      buildColumnMap ((jsSplit ((jsSplit (jsTrim c6csv) '\n').headD "") ',').map jsTrim)
          .pascalId = some pidIdx ∧
      buildColumnMap ((jsSplit ((jsSplit (jsTrim c6csv) '\n').headD "") ',').map jsTrim)
          .keyword = some kwIdx ∧
      c6data.keywords.length =
        (jsSplit (jsTrim c6csv) '\n').tail.countP
          (rowEmits
            (maxColIdx (buildColumnMap
              ((jsSplit ((jsSplit (jsTrim c6csv) '\n').headD "") ',').map jsTrim)))
            pidIdx kwIdx) :=
  parsed_keyword_count c6csv c6data (by decide)

/-! ## C4: rank-cell filtering -/

theorem cellFact_some (pid : Int) (date cell : String) (fr : PascalRankingData)
    (h : cellFact pid date cell = some fr) :
    parseIntJs cell = some fr.rank ∧ 0 < fr.rank ∧ fr.pascal_id = pid ∧ fr.date = date := by
  simp only [cellFact] at h
  split_ifs at h with hc
  · split at h
    · rename_i r heq
      split_ifs at h with hr
      · injection h with h
        subst h
        exact ⟨heq, hr, rfl, rfl⟩
    · exact Option.noConfusion h

theorem parseRow_rank_pos (cm : CsvField → Option Nat) (maxIdx : Nat)
    (dateCols : List (Nat × String)) (pidIdx kwIdx : Nat) (line : String)
    (pr : PascalKeywordData × List PascalRankingData)
    (h : parseRow cm maxIdx dateCols pidIdx kwIdx line = some pr) :
    ∀ fr ∈ pr.2, 0 < fr.rank := by
  intro fr hfr
  simp only [parseRow] at h
  split at h
  · exact Option.noConfusion h
  · split at h
    · exact Option.noConfusion h
    · split at h
      · exact Option.noConfusion h
      · injection h with h
        subst h
        obtain ⟨p, _, hcf⟩ := List.mem_filterMap.mp hfr
        exact (cellFact_some _ _ _ _ hcf).2.1

theorem parsePascalCsv_rank_pos (csv : String) (d : PascalCsvData)
    (h : parsePascalCsv csv = .ok d) : ∀ fr ∈ d.rankings, 0 < fr.rank := by
  simp only [parsePascalCsv] at h
  by_cases hlen : (jsSplit (jsTrim csv) '\n').length < 2
  · rw [if_pos hlen] at h
    exact Except.noConfusion h
  · rw [if_neg hlen] at h
    split at h
    case _ pidIdx kwIdx hp hk =>
      split at h
      case _ => exact Except.noConfusion h
      case _ =>
        injection h with h
        subst h
        intro fr hfr
        obtain ⟨l, hl, hfl⟩ := List.mem_flatten.mp hfr
        obtain ⟨pr, hpr, rfl⟩ := List.mem_map.mp hl
        obtain ⟨line, _, hline⟩ := List.mem_filterMap.mp hpr
        exact parseRow_rank_pos _ _ _ _ _ _ _ hline fr hfl
    case _ => exact Except.noConfusion h

/-- C4: the per-cell filtering of date cells.  Empty and `"-"` cells yield
no fact; a cell whose `parseInt` is non-positive or fails yields no fact;
a fact is produced exactly for the other cells, carrying the parsed rank,
and globally every parsed ranking has a strictly positive rank. -/
theorem rank_cell_filtering :
    (∀ pid : Int, ∀ date : String,
      cellFact pid date "" = none ∧ cellFact pid date "-" = none) ∧
    (∀ pid : Int, ∀ date cell : String, ∀ r : Int,
      parseIntJs cell = some r → r ≤ 0 → cellFact pid date cell = none) ∧
    (∀ pid : Int, ∀ date cell : String,
      parseIntJs cell = none → cellFact pid date cell = none) ∧
    (∀ pid : Int, ∀ date cell : String, ∀ fr : PascalRankingData,
      cellFact pid date cell = some fr →
        parseIntJs cell = some fr.rank ∧ 0 < fr.rank ∧ fr.pascal_id = pid ∧ fr.date = date) ∧
    (∀ pid : Int, ∀ date cell : String, ∀ r : Int,
      parseIntJs cell = some r → 0 < r → cell ≠ "" → cell ≠ "-" →
        cellFact pid date cell = some ⟨pid, date, r⟩) ∧
    (∀ csv : String, ∀ d : PascalCsvData,
      parsePascalCsv csv = .ok d → ∀ fr ∈ d.rankings, 0 < fr.rank) := by
  refine ⟨fun pid date => ⟨rfl, rfl⟩, ?_, ?_, fun pid date cell fr h => cellFact_some pid date cell fr h, ?_, fun csv d h => parsePascalCsv_rank_pos csv d h⟩
  · intro pid date cell r h hr
    have hr' : ¬r > 0 := by omega
    simp [cellFact, h, hr']
  · intro pid date cell h
    simp [cellFact, h]
  · intro pid date cell r h hr hne hnd
    simp [cellFact, h, hne, hnd, hr]

/-- C4 (witness): the filtering theorem applied to concrete cells `"0"`,
`"-3"`, `"abc"`, `""`, `"-"` and `"5"`, and to the parse of `c6csv`. -/
theorem rank_cell_filtering_witness :
    cellFact 7 "2025-01-01" "0" = none ∧
    cellFact 7 "2025-01-01" "-3" = none ∧
    cellFact 7 "2025-01-01" "abc" = none ∧
    cellFact 7 "2025-01-01" "" = none ∧
    cellFact 7 "2025-01-01" "-" = none ∧
    cellFact 7 "2025-01-01" "5" = some ⟨7, "2025-01-01", 5⟩ ∧
    (∀ fr ∈ c6data.rankings, 0 < fr.rank) :=
  ⟨rank_cell_filtering.2.1 7 "2025-01-01" "0" 0 (by decide) (by decide),
   rank_cell_filtering.2.1 7 "2025-01-01" "-3" (-3) (by decide) (by decide),
   rank_cell_filtering.2.2.1 7 "2025-01-01" "abc" (by decide),
   (rank_cell_filtering.1 7 "2025-01-01").1,
   (rank_cell_filtering.1 7 "2025-01-01").2,
   rank_cell_filtering.2.2.2.2.1 7 "2025-01-01" "5" 5 (by decide) (by decide) (by decide)
     (by decide),
   rank_cell_filtering.2.2.2.2.2 c6csv c6data (by decide)⟩

/-! ## C5: what the orchestrator returns on failure -/

/-- C5 (counterexample): a schema failure (no キーワード column, so the
parser throws) on an input that passes validation.  The orchestrator does
NOT surface the thrown error: its `catch` converts it into a structured
result with `success = false`, the error message in `errors`, and the store
untouched. -/
theorem import_structured_counterexample :
    (validatePascalCsv "Pascal ID キーワード,2025-01-01\n1,2").1 = true ∧
    parsePascalCsv "Pascal ID キーワード,2025-01-01\n1,2" =
      .error "CSV must contain Pascal ID and キーワード columns" ∧
    importPascalCsv emptyStore "Pascal ID キーワード,2025-01-01\n1,2" =
      (emptyStore,
        { emptyResult with
            errors := ["Import failed: CSV must contain Pascal ID and キーワード columns"] }) := by
  refine ⟨by decide, by decide, by decide⟩

/-- C5 (amended): `importPascalCsv` ALWAYS returns a structured result and
never lets an error escape.  The abort-before-persistence cases — failed
validation, a parser throw, and zero parseable keywords — all return a
structured result with the error recorded and the store unchanged; a parser
throw is wrapped by the `catch` as `Import failed: ...`. -/
theorem import_returns_structured (store : Store) (csv : String) :
    ((validatePascalCsv csv).1 = false →
      importPascalCsv store csv =
        (store, { emptyResult with errors := (validatePascalCsv csv).2 })) ∧
    (∀ e : String, (validatePascalCsv csv).1 = true → parsePascalCsv csv = .error e →
      importPascalCsv store csv =
        (store, { emptyResult with errors := ["Import failed: " ++ e] })) ∧
    (∀ d : PascalCsvData, (validatePascalCsv csv).1 = true → parsePascalCsv csv = .ok d →
      d.keywords = [] →
      importPascalCsv store csv =
        (store,
          { emptyResult with
              totalRankings := d.rankings.length
              errors := ["No valid keywords found in CSV"] })) ∧
    (∀ e : String, importPascalCsvBody store csv = .error e →
      importPascalCsv store csv =
        (store, { emptyResult with errors := ["Import failed: " ++ e] })) := by
  refine ⟨?_, ?_, ?_, ?_⟩
  · intro hv
    simp [importPascalCsv, importPascalCsvBody, hv]
  · intro e hv hp
    simp [importPascalCsv, importPascalCsvBody, hv, hp]
  · intro d hv hp hd
    simp [importPascalCsv, importPascalCsvBody, emptyResult, hv, hp, hd]
  · intro e h
    simp [importPascalCsv, h]

/-- C5 (witness): the structured-result theorem applied to an empty input
(validation failure) and to an input whose only data row has an unparseable
identifier (zero keywords). -/
theorem import_returns_structured_witness :
    importPascalCsv emptyStore "" =
      (emptyStore,
        { emptyResult with errors := ["CSV must contain at least header and one data row"] }) ∧
    importPascalCsv emptyStore "Pascal ID,キーワード,2025年1月1日\nx,foo,5" =
      (emptyStore, { emptyResult with errors := ["No valid keywords found in CSV"] }) := by
  constructor
  · have h := (import_returns_structured emptyStore "").1 (by decide)
    rw [h]
    decide
  · have h := (import_returns_structured emptyStore
        "Pascal ID,キーワード,2025年1月1日\nx,foo,5").2.2.1 ⟨[], []⟩ (by decide) (by decide) rfl
    rw [h]
    decide

/-! ## C1: daily aggregation is dense -/

theorem parseIsoDate_ne_empty (s : String) (z : Int) (h : parseIsoDate s = some z) :
    s ≠ "" := by
  intro he
  subst he
  have hnone : parseIsoDate "" = none := by decide
  rw [hnone] at h
  exact Option.noConfusion h

theorem dailyPoint_date (sorted : List RankingData) (date : String) :
    (dailyPoint sorted date).date = date := by
  simp only [dailyPoint]
  split
  · rename_i it hlw
    exact lastWithDate_date _ _ _ hlw
  · rfl

theorem aggregatedData_daily (data : List RankingData) (s e : String) (zs ze : Int)
    (hs : parseIsoDate s = some zs) (he : parseIsoDate e = some ze) :
    aggregatedData data .daily (some s) (some e) =
      (generateDateRange zs ze).map (dailyPoint (sortRankings data)) := by
  simp only [aggregatedData, jsStrTruthy, Option.some_bind,
    if_neg (parseIsoDate_ne_empty s zs hs), if_neg (parseIsoDate_ne_empty e ze he),
    epochD, hs, he, Option.getD_some]

/-- C1: with a parseable start ≤ end, the daily aggregation has exactly one
point per calendar day of the inclusive range (count, enumeration in order,
no duplicate dates), and a date no fact matches carries the sentinel
point. -/
theorem daily_range_is_dense (data : List RankingData) (s e : String) (zs ze : Int)
    (hs : parseIsoDate s = some zs) (he : parseIsoDate e = some ze) (hle : zs ≤ ze) :
    (aggregatedData data .daily (some s) (some e)).length = (ze + 1 - zs).toNat ∧
    (aggregatedData data .daily (some s) (some e)).map (fun p => p.date) =
      (List.range (ze + 1 - zs).toNat).map (fun i : Nat => isoOfEpoch (zs + (i : Int))) ∧
    ((aggregatedData data .daily (some s) (some e)).map (fun p => p.date)).Nodup ∧
    (∀ p ∈ aggregatedData data .daily (some s) (some e),
      (∀ f ∈ data, f.date ≠ p.date) → p = sentinelPoint p.date) := by
  rw [aggregatedData_daily data s e zs ze hs he]
  obtain ⟨hzs0, hzs1⟩ := parseIsoDate_range s zs hs
  obtain ⟨hze0, hze1⟩ := parseIsoDate_range e ze he
  have hdates : ((generateDateRange zs ze).map (dailyPoint (sortRankings data))).map
      (fun p => p.date) =
      (List.range (ze + 1 - zs).toNat).map (fun i : Nat => isoOfEpoch (zs + (i : Int))) := by
    rw [List.map_map]
    have hcong : ∀ d ∈ generateDateRange zs ze,
        ((fun p : AggregatedData => p.date) ∘ dailyPoint (sortRankings data)) d = id d :=
      fun d _ => dailyPoint_date _ d
    rw [List.map_congr_left hcong, List.map_id, generateDateRange_eq]
  refine ⟨?_, hdates, ?_, ?_⟩
  · rw [List.length_map, generateDateRange_eq, List.length_map, List.length_range]
  · rw [hdates]
    refine List.Nodup.map_on ?_ (List.nodup_range _)
    intro x hx y hy hxy
    rw [List.mem_range] at hx hy
    have hx' : zs + (x : Int) ≤ ze := by omega
    have hy' : zs + (y : Int) ≤ ze := by omega
    have := isoOfEpoch_inj (zs + (x : Int)) (zs + (y : Int))
      ⟨by omega, by omega⟩ ⟨by omega, by omega⟩ hxy
    omega
  · intro p hp hnone
    obtain ⟨date, hmem, rfl⟩ := List.mem_map.mp hp
    rw [dailyPoint_date]
    cases hlw : lastWithDate (sortRankings data) date with
    | some it =>
      have hitdate := lastWithDate_date _ _ _ hlw
      have hitmem := (mem_sortRankings _ _).mp (lastWithDate_mem _ _ _ hlw)
      have := hnone it hitmem
      rw [dailyPoint_date, hitdate] at this
      exact absurd rfl this
    | none => simp [dailyPoint, hlw]

/-- C1 (witness): the density theorem on the running example gives 4 points
for 2025-01-01 through 2025-01-04. -/
theorem daily_range_is_dense_witness :
    (aggregatedData [⟨"2025-01-01", 3⟩, ⟨"2025-01-04", 45⟩] .daily (some "2025-01-01")
        (some "2025-01-04")).length = 4 := by
  have h := (daily_range_is_dense [⟨"2025-01-01", 3⟩, ⟨"2025-01-04", 45⟩] "2025-01-01"
    "2025-01-04" 20089 20092 (by decide) (by decide) (by decide)).1
  rw [h]
  decide

/-! ## C2: weekly buckets -/

theorem mkGroupPoint_date (gk : String → String) (sorted : List RankingData) (key : String) :
    (mkGroupPoint gk sorted key).date = key := by
  simp only [mkGroupPoint]
  split_ifs <;> rfl

theorem mkGroupPoint_dataPoints (gk : String → String) (sorted : List RankingData)
    (key : String) :
    (mkGroupPoint gk sorted key).dataPoints =
      (sorted.filter (fun it => gk it.date == key)).length := by
  simp only [mkGroupPoint]
  split_ifs with h
  · rw [List.isEmpty_iff] at h
    rw [h]
    rfl
  · simp [List.length_map]

theorem aggregatedData_weekly (data : List RankingData) (s e : String) (zs ze : Int)
    (hs : parseIsoDate s = some zs) (he : parseIsoDate e = some ze) :
    aggregatedData data .weekly (some s) (some e) =
      (weeklyPeriods (mondayOnOrBefore zs) ze).map
        (mkGroupPoint groupKeyWeekly (sortRankings data)) := by
  simp only [aggregatedData, jsStrTruthy, Option.some_bind,
    if_neg (parseIsoDate_ne_empty s zs hs), if_neg (parseIsoDate_ne_empty e ze he),
    epochD, hs, he, Option.getD_some]

/-- C2: weekly bucket keys step by 7 days from the Monday on/before the
start date; every bucket key is a Monday within the range; a fact's group
key is the Monday on or before its date; and each bucket counts exactly the
facts whose group key is that bucket's key. -/
theorem weekly_buckets_are_mondays (data : List RankingData) (s e : String) (zs ze : Int)
    (hs : parseIsoDate s = some zs) (he : parseIsoDate e = some ze) :
    ((aggregatedData data .weekly (some s) (some e)).map (fun p => p.date) =
      (List.range ((ze - mondayOnOrBefore zs) / 7 + 1).toNat).map
        (fun i : Nat => isoOfEpoch (mondayOnOrBefore zs + 7 * (i : Int)))) ∧
    (∀ p ∈ aggregatedData data .weekly (some s) (some e),
      ∃ z : Int, weekday z = 1 ∧ mondayOnOrBefore zs ≤ z ∧ z ≤ ze ∧
        p.date = isoOfEpoch z) ∧
    (∀ dstr : String, ∀ z : Int, parseIsoDate dstr = some z →
      groupKeyWeekly dstr = isoOfEpoch (mondayOnOrBefore z) ∧
      weekday (mondayOnOrBefore z) = 1 ∧ mondayOnOrBefore z ≤ z ∧
        z < mondayOnOrBefore z + 7) ∧
    (∀ p ∈ aggregatedData data .weekly (some s) (some e),
      p.dataPoints = (data.filter (fun f => groupKeyWeekly f.date == p.date)).length) := by
  rw [aggregatedData_weekly data s e zs ze hs he]
  refine ⟨?_, ?_, ?_, ?_⟩
  · rw [List.map_map]
    have hcong : ∀ d ∈ weeklyPeriods (mondayOnOrBefore zs) ze,
        ((fun p : AggregatedData => p.date) ∘
          mkGroupPoint groupKeyWeekly (sortRankings data)) d = id d :=
      fun d _ => mkGroupPoint_date _ _ d
    rw [List.map_congr_left hcong, List.map_id, weeklyPeriods_eq]
  · intro p hp
    obtain ⟨key, hkey, rfl⟩ := List.mem_map.mp hp
    rw [weeklyPeriods_eq] at hkey
    obtain ⟨i, hi, rfl⟩ := List.mem_map.mp hkey
    rw [List.mem_range] at hi
    obtain ⟨hw, -, -, -⟩ := mondayOnOrBefore_spec zs
    refine ⟨mondayOnOrBefore zs + 7 * (i : Int), ?_, by omega, ?_, by rw [mkGroupPoint_date]⟩
    · simp only [weekday] at hw ⊢
      omega
    · have : (i : Int) ≤ (ze - mondayOnOrBefore zs) / 7 := by
        have := hi
        omega
      omega
  · intro dstr z h
    obtain ⟨h1, h2, h3, -⟩ := mondayOnOrBefore_spec z
    refine ⟨?_, h1, h2, h3⟩
    rw [groupKeyWeekly, epochD, h, Option.getD_some]
  · intro p hp
    obtain ⟨key, hkey, rfl⟩ := List.mem_map.mp hp
    rw [mkGroupPoint_dataPoints, mkGroupPoint_date]
    exact (((sortRankings_perm data).filter _).length_eq)

/-- C2 (witness): a fact dated 2025-01-03 (a Friday) has weekly group key
2024-12-30, and the weekly aggregation over 2025-01-01..2025-01-05 produces
exactly that bucket carrying the fact. -/
theorem weekly_buckets_are_mondays_witness :
    groupKeyWeekly "2025-01-03" = isoOfEpoch (mondayOnOrBefore 20091) ∧
    groupKeyWeekly "2025-01-03" = "2024-12-30" ∧
    (aggregatedData [⟨"2025-01-03", 7⟩] .weekly (some "2025-01-01")
        (some "2025-01-05")).map (fun p => p.date) = ["2024-12-30"] ∧
    (∀ p ∈ aggregatedData [⟨"2025-01-03", 7⟩] .weekly (some "2025-01-01")
        (some "2025-01-05"),
      p.dataPoints =
        (([⟨"2025-01-03", 7⟩] : List RankingData).filter
          (fun f => groupKeyWeekly f.date == p.date)).length) := by
  have h := weekly_buckets_are_mondays [⟨"2025-01-03", 7⟩] "2025-01-01" "2025-01-05"
    20089 20093 (by decide) (by decide)
  refine ⟨(h.2.2.1 "2025-01-03" 20091 (by decide)).1, by decide, ?_, h.2.2.2⟩
  have h1 := h.1
  rw [h1]
  decide

/-! ## C8: monthly buckets -/

theorem aggregatedData_monthly (data : List RankingData) (s e : String) (zs ze : Int)
    (hs : parseIsoDate s = some zs) (he : parseIsoDate e = some ze) :
    aggregatedData data .monthly (some s) (some e) =
      (monthlyPeriods (monthIdx zs) ze).map
        (mkGroupPoint groupKeyMonthly (sortRankings data)) := by
  simp only [aggregatedData, jsStrTruthy, Option.some_bind,
    if_neg (parseIsoDate_ne_empty s zs hs), if_neg (parseIsoDate_ne_empty e ze he),
    epochD, hs, he, Option.getD_some]

/-- C8: monthly bucket keys run from the start date's month through the end
date's month inclusive; every bucket key is the first day of a month
(`YYYY-MM-01`); a fact's group key is the first of its own month; and each
bucket counts exactly the facts whose group key is that bucket's key. -/
theorem monthly_buckets_first_of_month (data : List RankingData) (s e : String)
    (zs ze : Int) (hs : parseIsoDate s = some zs) (he : parseIsoDate e = some ze) :
    ((aggregatedData data .monthly (some s) (some e)).map (fun p => p.date) =
      (List.range (monthIdx ze + 1 - monthIdx zs).toNat).map
        (fun i : Nat => monthKeyOfIdx (monthIdx zs + (i : Int)))) ∧
    (∀ p ∈ aggregatedData data .monthly (some s) (some e),
      ∃ mi : Int, monthIdx zs ≤ mi ∧ mi ≤ monthIdx ze ∧ p.date = monthKeyOfIdx mi ∧
        ∃ y m : Int, 1 ≤ m ∧ m ≤ 12 ∧
          p.date = toString y ++ "-" ++ padStart2 (toString m) ++ "-01") ∧
    (∀ dstr : String, ∀ z : Int, parseIsoDate dstr = some z →
      groupKeyMonthly dstr = monthKeyOfIdx (monthIdx z)) ∧
    (∀ p ∈ aggregatedData data .monthly (some s) (some e),
      p.dataPoints = (data.filter (fun f => groupKeyMonthly f.date == p.date)).length) := by
  rw [aggregatedData_monthly data s e zs ze hs he]
  refine ⟨?_, ?_, ?_, ?_⟩
  · rw [List.map_map]
    have hcong : ∀ d ∈ monthlyPeriods (monthIdx zs) ze,
        ((fun p : AggregatedData => p.date) ∘
          mkGroupPoint groupKeyMonthly (sortRankings data)) d = id d :=
      fun d _ => mkGroupPoint_date _ _ d
    rw [List.map_congr_left hcong, List.map_id, monthlyPeriods_eq]
  · intro p hp
    obtain ⟨key, hkey, rfl⟩ := List.mem_map.mp hp
    rw [monthlyPeriods_eq] at hkey
    obtain ⟨i, hi, rfl⟩ := List.mem_map.mp hkey
    rw [List.mem_range] at hi
    refine ⟨monthIdx zs + (i : Int), by omega, by omega, by rw [mkGroupPoint_date],
      (monthIdx zs + (i : Int)) / 12, (monthIdx zs + (i : Int)) % 12 + 1,
      by omega, by omega, by rw [mkGroupPoint_date]; rfl⟩
  · intro dstr z h
    rw [groupKeyMonthly, epochD, h, Option.getD_some]
    exact monthKeyOf_eq_idx z
  · intro p hp
    obtain ⟨key, hkey, rfl⟩ := List.mem_map.mp hp
    rw [mkGroupPoint_dataPoints, mkGroupPoint_date]
    exact (((sortRankings_perm data).filter _).length_eq)

/-- C8 (witness): facts dated 2025-02-05 and 2025-02-28 both group under
2025-02-01, and the bucket sequence for 2025-01-15..2025-03-02 is
January, February, March firsts. -/
theorem monthly_buckets_first_of_month_witness :
    groupKeyMonthly "2025-02-05" = "2025-02-01" ∧
    groupKeyMonthly "2025-02-28" = "2025-02-01" ∧
    (aggregatedData [⟨"2025-02-05", 7⟩, ⟨"2025-02-28", 9⟩] .monthly (some "2025-01-15")
        (some "2025-03-02")).map (fun p => p.date) =
      ["2025-01-01", "2025-02-01", "2025-03-01"] ∧
    (∀ p ∈ aggregatedData [⟨"2025-02-05", 7⟩, ⟨"2025-02-28", 9⟩] .monthly
        (some "2025-01-15") (some "2025-03-02"),
      p.dataPoints =
        (([⟨"2025-02-05", 7⟩, ⟨"2025-02-28", 9⟩] : List RankingData).filter
          (fun f => groupKeyMonthly f.date == p.date)).length) := by
  have h := monthly_buckets_first_of_month [⟨"2025-02-05", 7⟩, ⟨"2025-02-28", 9⟩]
    "2025-01-15" "2025-03-02" 20103 20149 (by decide) (by decide)
  have hkey := h.2.2.1 "2025-02-05" 20124 (by decide)
  have hkey2 := h.2.2.1 "2025-02-28" 20147 (by decide)
  refine ⟨?_, ?_, ?_, h.2.2.2⟩
  · rw [hkey]
    decide
  · rw [hkey2]
    decide
  · have h1 := h.1
    rw [h1]
    decide

/-! ## C10: point coherence -/

/-- The coherence invariant C10 states for one aggregated point: the
null-rank, out-of-range and zero-count flags agree; an out-of-range point is
the sentinel (all statistics 101); an in-range point has at least one fact
and statistics computed from a non-empty list of genuine fact ranks. -/
def coherentWith (data : List RankingData) (p : AggregatedData) : Prop :=
  (p.rank = none ↔ p.isOutOfRange = true) ∧
  (p.isOutOfRange = true ↔ p.dataPoints = 0) ∧
  (p.isOutOfRange = true →
    p.avgRank = 101 ∧ p.minRank = 101 ∧ p.maxRank = 101 ∧ p = sentinelPoint p.date) ∧
  (p.isOutOfRange = false →
    1 ≤ p.dataPoints ∧ p.rank = some p.avgRank ∧
    ∃ rs : List Int, rs ≠ [] ∧ p.dataPoints = rs.length ∧
      p.avgRank = jsRoundDiv (sumRanks rs) rs.length ∧
      p.minRank = listMinD rs ∧ p.maxRank = listMaxD rs ∧
      ∀ r ∈ rs, ∃ f ∈ data, f.rank = r)

theorem sentinel_coherent (data : List RankingData) (date : String) :
    coherentWith data (sentinelPoint date) := by
  refine ⟨by simp [sentinelPoint], by simp [sentinelPoint],
    fun _ => ⟨rfl, rfl, rfl, rfl⟩, fun h => by simp [sentinelPoint] at h⟩

theorem dailyPoint_coherent (data : List RankingData) (date : String) :
    coherentWith data (dailyPoint (sortRankings data) date) := by
  cases hlw : lastWithDate (sortRankings data) date with
  | none =>
    have hd : dailyPoint (sortRankings data) date = sentinelPoint date := by
      simp [dailyPoint, hlw]
    rw [hd]
    exact sentinel_coherent data date
  | some it =>
    have hmem : it ∈ data := (mem_sortRankings _ _).mp (lastWithDate_mem _ _ _ hlw)
    have hd : dailyPoint (sortRankings data) date =
        { date := it.date, rank := some it.rank, avgRank := it.rank, minRank := it.rank,
          maxRank := it.rank, dataPoints := 1, isOutOfRange := false } := by
      simp [dailyPoint, hlw]
    rw [hd]
    refine ⟨by simp, by simp, fun h => by simp at h, fun _ => ?_⟩
    refine ⟨by simp, rfl, [it.rank], by simp, rfl, ?_, rfl, rfl, ?_⟩
    · simp only [sumRanks, List.foldl_cons, List.foldl_nil, List.length_cons,
        List.length_nil, jsRoundDiv]
      omega
    · intro r hr
      rw [List.mem_singleton] at hr
      subst hr
      exact ⟨it, hmem, rfl⟩

theorem mkGroupPoint_coherent (gk : String → String) (data : List RankingData)
    (key : String) :
    coherentWith data (mkGroupPoint gk (sortRankings data) key) := by
  by_cases hempty : ((sortRankings data).filter (fun it => gk it.date == key)).isEmpty = true
  · have hd : mkGroupPoint gk (sortRankings data) key = sentinelPoint key := by
      simp only [mkGroupPoint]
      rw [if_pos hempty]
    rw [hd]
    exact sentinel_coherent data key
  · have hne : (sortRankings data).filter (fun it => gk it.date == key) ≠ [] := by
      intro h0
      exact hempty (by simp [h0])
    have hd : mkGroupPoint gk (sortRankings data) key =
        { date := key,
          rank := some (jsRoundDiv
            (sumRanks (((sortRankings data).filter (fun it => gk it.date == key)).map
              (fun it => it.rank)))
            (((sortRankings data).filter (fun it => gk it.date == key)).map
              (fun it => it.rank)).length),
          avgRank := jsRoundDiv
            (sumRanks (((sortRankings data).filter (fun it => gk it.date == key)).map
              (fun it => it.rank)))
            (((sortRankings data).filter (fun it => gk it.date == key)).map
              (fun it => it.rank)).length,
          minRank := listMinD (((sortRankings data).filter (fun it => gk it.date == key)).map
            (fun it => it.rank)),
          maxRank := listMaxD (((sortRankings data).filter (fun it => gk it.date == key)).map
            (fun it => it.rank)),
          dataPoints := (((sortRankings data).filter (fun it => gk it.date == key)).map
            (fun it => it.rank)).length,
          isOutOfRange := false } := by
      simp only [mkGroupPoint]
      rw [if_neg hempty]
    rw [hd]
    have hlen : 0 < ((sortRankings data).filter (fun it => gk it.date == key)).length :=
      List.length_pos.mpr hne
    refine ⟨by simp, ⟨fun h => Bool.noConfusion h, fun h0 => ?_⟩, fun h => by simp at h,
      fun _ => ?_⟩
    · rw [List.length_map] at h0
      exact absurd (List.length_eq_zero.mp h0) hne
    refine ⟨by rw [List.length_map]; exact List.length_pos.mpr hne, rfl,
      ((sortRankings data).filter (fun it => gk it.date == key)).map (fun it => it.rank),
      by simp [hne], rfl, rfl, rfl, rfl, ?_⟩
    intro r hr
    obtain ⟨it, hit, rfl⟩ := List.mem_map.mp hr
    exact ⟨it, (mem_sortRankings _ _).mp (List.mem_of_mem_filter hit), rfl⟩

/-- C10: every point that `aggregatedData` produces, at any granularity and
for any props, satisfies the coherence invariant. -/
theorem aggregated_point_coherence (data : List RankingData) (agg : TimeAggregation)
    (s e : Option String) :
    ∀ p ∈ aggregatedData data agg s e, coherentWith data p := by
  intro p hp
  simp only [aggregatedData] at hp
  split at hp
  · exact absurd hp (List.not_mem_nil p)
  · split at hp
    · obtain ⟨date, -, rfl⟩ := List.mem_map.mp hp
      exact dailyPoint_coherent data date
    · obtain ⟨key, -, rfl⟩ := List.mem_map.mp hp
      exact mkGroupPoint_coherent groupKeyWeekly data key
    · obtain ⟨key, -, rfl⟩ := List.mem_map.mp hp
      exact mkGroupPoint_coherent groupKeyMonthly data key

/-- C10 (witness): the invariant theorem applied to the first point of the
running daily example. -/
theorem aggregated_point_coherence_witness :
    coherentWith [⟨"2025-01-01", 3⟩, ⟨"2025-01-04", 45⟩]
      { date := "2025-01-01", rank := some 3, avgRank := 3, minRank := 3, maxRank := 3,
        dataPoints := 1, isOutOfRange := false } :=
  aggregated_point_coherence [⟨"2025-01-01", 3⟩, ⟨"2025-01-04", 45⟩] .daily
    (some "2025-01-01") (some "2025-01-04")
    { date := "2025-01-01", rank := some 3, avgRank := 3, minRank := 3, maxRank := 3,
      dataPoints := 1, isOutOfRange := false } (by decide)

/-! ## C3: importing the same CSV twice — keyword-store lemmas -/

/-- The `pascal_id`s present in the keyword table. -/
def pids (s : Store) : List Int := s.keywords.map (fun e => e.2.pascal_id)

/-- The data of the LAST occurrence of `pascal_id = p` in an import list
(the record a sequence of upserts leaves behind). -/
def lastData : List PascalKeywordData → Int → Option PascalKeywordData
  | [], _ => none
  | k :: rest, p =>
    match lastData rest p with
    | some x => some x
    | none => if k.pascal_id == p then some k else none

/-- The surrogate id the table holds for `pascal_id = p`. -/
def kwLookup (s : Store) (p : Int) : Option Nat :=
  (s.keywords.find? (fun e => e.2.pascal_id == p)).map (fun e => e.1)

/-- Pointwise effect of a whole import list on the keyword table. -/
def kwOverwrite (ks : List PascalKeywordData) (l : List (Nat × PascalKeywordData)) :
    List (Nat × PascalKeywordData) :=
  l.map (fun e => (e.1, (lastData ks e.2.pascal_id).getD e.2))

theorem find?_map_of_pred_inv {α : Type} (f : α → α) (q : α → Bool)
    (h : ∀ x, q (f x) = q x) (l : List α) :
    (l.map f).find? q = (l.find? q).map f := by
  induction l with
  | nil => rfl
  | cons a l ih =>
    rw [List.map_cons, List.find?_cons, List.find?_cons, h a]
    cases hqa : q a <;> simp [ih]

theorem mem_pids_find (s : Store) (p : Int) (h : p ∈ pids s) :
    (s.keywords.find? (fun e => e.2.pascal_id == p)).isSome := by
  rw [List.find?_isSome]
  obtain ⟨e, hmem, he⟩ := List.mem_map.mp h
  exact ⟨e, hmem, by simp [he]⟩

theorem pids_map_update (l : List (Nat × PascalKeywordData)) (k : PascalKeywordData) :
    (l.map (fun e' => if e'.2.pascal_id == k.pascal_id then (e'.1, k) else e')).map
      (fun e => e.2.pascal_id) = l.map (fun e => e.2.pascal_id) := by
  rw [List.map_map]
  apply List.map_congr_left
  intro e _
  simp only [Function.comp_apply]
  split_ifs with h
  · exact (eq_of_beq h).symm
  · rfl

theorem upsertKeyword_rankings (s : Store) (k : PascalKeywordData) :
    (upsertKeyword s k).1.rankings = s.rankings := by
  cases hf : s.keywords.find? (fun e => e.2.pascal_id == k.pascal_id) <;>
    simp [upsertKeyword, hf]

theorem upsertKeyword_pids_sub (s : Store) (k : PascalKeywordData) (p : Int)
    (h : p ∈ pids s) : p ∈ pids (upsertKeyword s k).1 := by
  cases hf : s.keywords.find? (fun e => e.2.pascal_id == k.pascal_id) with
  | some e =>
    simp only [upsertKeyword, hf, pids] at h ⊢
    rw [pids_map_update]
    exact h
  | none =>
    simp only [upsertKeyword, hf, pids] at h ⊢
    rw [List.map_append]
    exact List.mem_append_left _ h

theorem upsertKeyword_pids_self (s : Store) (k : PascalKeywordData) :
    k.pascal_id ∈ pids (upsertKeyword s k).1 := by
  cases hf : s.keywords.find? (fun e => e.2.pascal_id == k.pascal_id) with
  | some e =>
    have hmem := List.mem_of_find?_eq_some hf
    have hpe : e.2.pascal_id = k.pascal_id := by
      have := List.find?_some hf
      simpa using this
    simp only [upsertKeyword, pids, hf]
    rw [pids_map_update]
    rw [← hpe]
    exact List.mem_map_of_mem _ hmem
  | none =>
    simp only [upsertKeyword, pids, hf]
    rw [List.map_append]
    exact List.mem_append_right _ (by simp)

theorem upsertKeyword_mem_of_other (s : Store) (k : PascalKeywordData)
    (e : Nat × PascalKeywordData) (hmem : e ∈ (upsertKeyword s k).1.keywords)
    (hne : e.2.pascal_id ≠ k.pascal_id) : e ∈ s.keywords := by
  cases hf : s.keywords.find? (fun e => e.2.pascal_id == k.pascal_id) with
  | some e0 =>
    simp only [upsertKeyword, hf] at hmem
    obtain ⟨e', he', heq⟩ := List.mem_map.mp hmem
    by_cases hc : (e'.2.pascal_id == k.pascal_id) = true
    · rw [if_pos hc] at heq
      subst heq
      exact absurd rfl hne
    · rw [if_neg hc] at heq
      subst heq
      exact he'
  | none =>
    simp only [upsertKeyword, hf] at hmem
    rcases List.mem_append.mp hmem with h | h
    · exact h
    · rw [List.mem_singleton] at h
      subst h
      exact absurd rfl hne

theorem upsertKeyword_data_of_pid (s : Store) (k : PascalKeywordData)
    (e : Nat × PascalKeywordData) (hmem : e ∈ (upsertKeyword s k).1.keywords)
    (hpe : e.2.pascal_id = k.pascal_id) : e.2 = k := by
  cases hf : s.keywords.find? (fun e => e.2.pascal_id == k.pascal_id) with
  | some e0 =>
    simp only [upsertKeyword, hf] at hmem
    obtain ⟨e', he', heq⟩ := List.mem_map.mp hmem
    by_cases hc : (e'.2.pascal_id == k.pascal_id) = true
    · rw [if_pos hc] at heq
      subst heq
      rfl
    · rw [if_neg hc] at heq
      subst heq
      exact absurd (beq_iff_eq.mpr hpe) hc
  | none =>
    simp only [upsertKeyword, hf] at hmem
    rcases List.mem_append.mp hmem with h | h
    · have := List.find?_eq_none.mp hf e h
      exact absurd (beq_iff_eq.mpr hpe) this
    · rw [List.mem_singleton] at h
      subst h
      rfl

theorem upsertKeyword_lookup_self (s : Store) (k : PascalKeywordData) :
    kwLookup (upsertKeyword s k).1 k.pascal_id = some (upsertKeyword s k).2 := by
  cases hf : s.keywords.find? (fun e => e.2.pascal_id == k.pascal_id) with
  | some e0 =>
    simp only [upsertKeyword, hf, kwLookup]
    rw [find?_map_of_pred_inv _ _ ?_ s.keywords]
    · rw [hf]
      show some ((if (e0.2.pascal_id == k.pascal_id) = true then (e0.1, k) else e0).1) =
        some e0.1
      split_ifs <;> rfl
    · intro x
      by_cases hc : (x.2.pascal_id == k.pascal_id) = true
      · rw [if_pos hc]
        show (k.pascal_id == k.pascal_id) = (x.2.pascal_id == k.pascal_id)
        rw [hc, beq_self_eq_true]
      · rw [if_neg hc]
  | none =>
    simp only [upsertKeyword, hf, kwLookup]
    rw [List.find?_append, hf]
    simp

theorem upsertKeyword_lookup_of_mem (s : Store) (k : PascalKeywordData) (p : Int)
    (h : p ∈ pids s) : kwLookup (upsertKeyword s k).1 p = kwLookup s p := by
  cases hf : s.keywords.find? (fun e => e.2.pascal_id == k.pascal_id) with
  | some e0 =>
    simp only [upsertKeyword, hf, kwLookup]
    rw [find?_map_of_pred_inv _ _ ?_ s.keywords]
    · cases hg : s.keywords.find? (fun e => e.2.pascal_id == p) with
      | none => rfl
      | some e1 =>
        show some ((if (e1.2.pascal_id == k.pascal_id) = true then (e1.1, k) else e1).1) =
          some e1.1
        split_ifs <;> rfl
    · intro x
      by_cases hc : (x.2.pascal_id == k.pascal_id) = true
      · rw [if_pos hc]
        show (k.pascal_id == p) = (x.2.pascal_id == p)
        rw [(eq_of_beq hc : x.2.pascal_id = k.pascal_id)]
      · rw [if_neg hc]
  | none =>
    simp only [upsertKeyword, hf, kwLookup]
    rw [List.find?_append]
    have hsome := mem_pids_find s p h
    cases hg : s.keywords.find? (fun e => e.2.pascal_id == p) with
    | none => rw [hg] at hsome; exact absurd hsome (by simp)
    | some e1 => rfl

/-! ## C3: keywordIdMap lemmas -/

theorem find?_set_list (m : List (Int × Nat)) (k : Int) (v : Nat) :
    (m.map (fun e => if e.1 == k then (k, v) else e)).find? (fun e => e.1 == k) =
      if m.any (fun e => e.1 == k) then some (k, v) else none := by
  induction m with
  | nil => rfl
  | cons e rest ih =>
    by_cases hc : (e.1 == k) = true
    · rw [List.map_cons, if_pos hc, List.find?_cons,
        show ((k, v).1 == k) = true from beq_self_eq_true k, List.any_cons, hc,
        Bool.true_or, if_pos rfl]
    · have hcf : (e.1 == k) = false := by simpa using hc
      rw [List.map_cons, if_neg hc, List.find?_cons, hcf, List.any_cons, hcf, Bool.false_or]
      exact ih

theorem find?_set_other (m : List (Int × Nat)) (k p : Int) (v : Nat) (hpk : p ≠ k) :
    (m.map (fun e => if e.1 == k then (k, v) else e)).find? (fun e => e.1 == p) =
      m.find? (fun e => e.1 == p) := by
  induction m with
  | nil => rfl
  | cons e rest ih =>
    by_cases hc : (e.1 == k) = true
    · have h1 : (k == p) = false := beq_eq_false_iff_ne.mpr (fun h => hpk h.symm)
      have h2 : (e.1 == p) = false := by
        rw [eq_of_beq hc]
        exact h1
      rw [List.map_cons, if_pos hc, List.find?_cons, List.find?_cons,
        show ((k, v).1 == p) = false from h1, h2]
      exact ih
    · rw [List.map_cons, if_neg hc, List.find?_cons, List.find?_cons]
      cases hq : (e.1 == p) with
      | true => rfl
      | false => exact ih

theorem mapGet_set_self (m : List (Int × Nat)) (k : Int) (v : Nat) :
    mapGet (mapSet m k v) k = some v := by
  simp only [mapSet]
  split_ifs with ha
  · simp only [mapGet]
    rw [find?_set_list, if_pos ha]
    rfl
  · simp only [mapGet]
    rw [List.find?_append]
    have ha' : m.any (fun e => e.1 == k) = false := by rwa [Bool.not_eq_true] at ha
    have hnone : m.find? (fun e => e.1 == k) = none := by
      rw [List.find?_eq_none]
      exact List.any_eq_false.mp ha'
    rw [hnone]
    simp [List.find?_cons]

theorem mapGet_set_other (m : List (Int × Nat)) (k p : Int) (v : Nat) (hpk : p ≠ k) :
    mapGet (mapSet m k v) p = mapGet m p := by
  simp only [mapSet]
  split_ifs with ha
  · simp only [mapGet]
    rw [find?_set_other m k p v hpk]
  · simp only [mapGet]
    rw [List.find?_append]
    have hkp : (k == p) = false := beq_eq_false_iff_ne.mpr (fun h => hpk h.symm)
    have : [(k, v)].find? (fun e => e.1 == p) = none := by simp [List.find?_cons, hkp]
    rw [this]
    cases hg : m.find? (fun e => e.1 == p) <;> rfl

/-! ## C3: keyword-stage lemmas -/

theorem runKeywords_rankings (ks : List PascalKeywordData) :
    ∀ (s : Store) (m : List (Int × Nat)), (runKeywords s ks m).1.rankings = s.rankings := by
  induction ks with
  | nil => intro s m; rfl
  | cons k rest ih =>
    intro s m
    simp only [runKeywords]
    rw [ih _ _, upsertKeyword_rankings]

theorem runKeywords_pids_sub (ks : List PascalKeywordData) (p : Int) :
    ∀ (s : Store) (m : List (Int × Nat)),
      p ∈ pids s → p ∈ pids (runKeywords s ks m).1 := by
  induction ks with
  | nil => intro s m h; exact h
  | cons k rest ih =>
    intro s m h
    simp only [runKeywords]
    exact ih _ _ (upsertKeyword_pids_sub s k p h)

theorem runKeywords_covers (ks : List PascalKeywordData) :
    ∀ (s : Store) (m : List (Int × Nat)),
      ∀ k ∈ ks, k.pascal_id ∈ pids (runKeywords s ks m).1 := by
  induction ks with
  | nil => intro s m k hk; exact absurd hk (List.not_mem_nil k)
  | cons k0 rest ih =>
    intro s m k hk
    simp only [runKeywords]
    rcases List.mem_cons.mp hk with rfl | hk'
    · exact runKeywords_pids_sub rest k.pascal_id _ _ (upsertKeyword_pids_self s k)
    · exact ih _ _ k hk'

theorem runKeywords_mem_of_not_touched (ks : List PascalKeywordData) :
    ∀ (s : Store) (m : List (Int × Nat)) (e : Nat × PascalKeywordData),
      e ∈ (runKeywords s ks m).1.keywords →
      e.2.pascal_id ∉ ks.map (fun k => k.pascal_id) → e ∈ s.keywords := by
  induction ks with
  | nil => intro s m e he _; exact he
  | cons k rest ih =>
    intro s m e he hn
    simp only [runKeywords] at he
    simp only [List.map_cons, List.mem_cons] at hn
    push_neg at hn
    exact upsertKeyword_mem_of_other s k e (ih _ _ e he hn.2) hn.1

theorem lastData_none (ks : List PascalKeywordData) (p : Int) :
    lastData ks p = none ↔ p ∉ ks.map (fun k => k.pascal_id) := by
  induction ks with
  | nil => simp [lastData]
  | cons k rest ih =>
    simp only [lastData, List.map_cons, List.mem_cons]
    cases hr : lastData rest p with
    | some x =>
      have hmem : p ∈ rest.map (fun k => k.pascal_id) := by
        by_contra hc
        rw [← ih] at hc
        rw [hc] at hr
        exact Option.noConfusion hr
      constructor
      · intro h
        exact Option.noConfusion h
      · intro h
        exact absurd (Or.inr hmem) h
    | none =>
      by_cases hc : (k.pascal_id == p) = true
      · rw [if_pos hc]
        constructor
        · intro h
          exact Option.noConfusion h
        · intro h
          exact absurd (Or.inl (eq_of_beq hc).symm) h
      · rw [if_neg hc]
        constructor
        · intro _
          rintro (rfl | hmem)
          · exact hc (beq_self_eq_true _)
          · exact (ih.mp hr) hmem
        · intro _
          rfl

theorem runKeywords_saturated (ks : List PascalKeywordData) :
    ∀ (s : Store) (m : List (Int × Nat)) (e : Nat × PascalKeywordData),
      e ∈ (runKeywords s ks m).1.keywords →
      ∀ x, lastData ks e.2.pascal_id = some x → e.2 = x := by
  induction ks with
  | nil => intro s m e _ x hx; exact Option.noConfusion hx
  | cons k rest ih =>
    intro s m e he x hx
    simp only [runKeywords] at he
    simp only [lastData] at hx
    cases hr : lastData rest e.2.pascal_id with
    | some x' =>
      simp only [hr] at hx
      injection hx with hx
      rw [← hx]
      exact ih _ _ e he x' hr
    | none =>
      simp only [hr] at hx
      split_ifs at hx with hc
      · injection hx with hx
        subst hx
        have hnotin := (lastData_none rest e.2.pascal_id).mp hr
        have he' := runKeywords_mem_of_not_touched rest _ _ e he hnotin
        exact upsertKeyword_data_of_pid s k e he' (eq_of_beq hc).symm

theorem kwOverwrite_nil (l : List (Nat × PascalKeywordData)) : kwOverwrite [] l = l := by
  simp only [kwOverwrite]
  have h : ∀ e ∈ l, (e.1, (lastData [] e.2.pascal_id).getD e.2) = id e := fun e _ => rfl
  rw [List.map_congr_left h, List.map_id]

theorem kwOverwrite_saturated (ks : List PascalKeywordData)
    (l : List (Nat × PascalKeywordData))
    (h : ∀ e ∈ l, ∀ x, lastData ks e.2.pascal_id = some x → e.2 = x) :
    kwOverwrite ks l = l := by
  simp only [kwOverwrite]
  have hcong : ∀ e ∈ l, (e.1, (lastData ks e.2.pascal_id).getD e.2) = id e := by
    intro e he
    show (e.1, (lastData ks e.2.pascal_id).getD e.2) = e
    cases hl : lastData ks e.2.pascal_id with
    | none => rfl
    | some x =>
      rw [Option.getD_some, ← h e he x hl]
  rw [List.map_congr_left hcong, List.map_id]

theorem runKeywords_overwrite (ks : List PascalKeywordData) :
    ∀ (s : Store) (m : List (Int × Nat)),
      (∀ k ∈ ks, k.pascal_id ∈ pids s) →
      (runKeywords s ks m).1 = { s with keywords := kwOverwrite ks s.keywords } := by
  induction ks with
  | nil =>
    intro s m _
    show s = { s with keywords := kwOverwrite [] s.keywords }
    rw [kwOverwrite_nil]
  | cons k rest ih =>
    intro s m hcov
    simp only [runKeywords]
    have hk : k.pascal_id ∈ pids s := hcov k (List.mem_cons_self k rest)
    obtain ⟨e0, hf⟩ := Option.isSome_iff_exists.mp (mem_pids_find s k.pascal_id hk)
    have hupd : (upsertKeyword s k).1 =
        { s with keywords := (s.keywords.map
            (fun e' => if e'.2.pascal_id == k.pascal_id then (e'.1, k) else e')) } := by
      simp [upsertKeyword, hf]
    rw [hupd]
    rw [ih _ _ ?_]
    · congr 1
      simp only [kwOverwrite, List.map_map]
      apply List.map_congr_left
      intro e _
      simp only [Function.comp_apply]
      by_cases hc : (e.2.pascal_id == k.pascal_id) = true
      · rw [if_pos hc]
        have hpe : e.2.pascal_id = k.pascal_id := eq_of_beq hc
        show (e.1, (lastData rest k.pascal_id).getD k) =
          (e.1, (lastData (k :: rest) e.2.pascal_id).getD e.2)
        rw [hpe]
        simp only [lastData]
        cases hl : lastData rest k.pascal_id with
        | some x => rfl
        | none =>
          rw [if_pos (beq_self_eq_true k.pascal_id)]
          rfl
      · rw [if_neg hc]
        show (e.1, (lastData rest e.2.pascal_id).getD e.2) =
          (e.1, (lastData (k :: rest) e.2.pascal_id).getD e.2)
        simp only [lastData]
        cases hl : lastData rest e.2.pascal_id with
        | some x => rfl
        | none =>
          have hck : (k.pascal_id == e.2.pascal_id) = false :=
            beq_eq_false_iff_ne.mpr (fun hh => hc (beq_iff_eq.mpr hh.symm))
          rw [if_neg (by rw [hck]; exact Bool.false_ne_true)]
    · intro k' hk'
      have hpids : pids { s with keywords := (s.keywords.map
          (fun e' => if e'.2.pascal_id == k.pascal_id then (e'.1, k) else e')) } = pids s := by
        simp only [pids]
        exact pids_map_update s.keywords k
      rw [hpids]
      exact hcov k' (List.mem_cons_of_mem _ hk')

theorem runKeywords_fixed (ks : List PascalKeywordData) (s : Store) (m : List (Int × Nat))
    (hcov : ∀ k ∈ ks, k.pascal_id ∈ pids s)
    (hsat : ∀ e ∈ s.keywords, ∀ x, lastData ks e.2.pascal_id = some x → e.2 = x) :
    (runKeywords s ks m).1 = s := by
  rw [runKeywords_overwrite ks s m hcov, kwOverwrite_saturated ks s.keywords hsat]

theorem runKeywords_lookup_stable (ks : List PascalKeywordData) :
    ∀ (s : Store) (m : List (Int × Nat)) (p : Int), p ∈ pids s →
      kwLookup (runKeywords s ks m).1 p = kwLookup s p := by
  induction ks with
  | nil => intro s m p _; rfl
  | cons k rest ih =>
    intro s m p hp
    simp only [runKeywords]
    rw [ih _ _ p (upsertKeyword_pids_sub s k p hp), upsertKeyword_lookup_of_mem s k p hp]

theorem runKeywords_map_get (ks : List PascalKeywordData) :
    ∀ (s : Store) (m : List (Int × Nat)) (p : Int),
      mapGet (runKeywords s ks m).2 p =
        if p ∈ ks.map (fun k => k.pascal_id) then kwLookup (runKeywords s ks m).1 p
        else mapGet m p := by
  induction ks with
  | nil =>
    intro s m p
    rw [List.map_nil, if_neg (List.not_mem_nil p)]
    rfl
  | cons k rest ih =>
    intro s m p
    simp only [runKeywords, List.map_cons]
    by_cases hr : p ∈ rest.map (fun k => k.pascal_id)
    · rw [ih _ _ p, if_pos hr, if_pos (List.mem_cons_of_mem _ hr)]
    · by_cases hpk : p = k.pascal_id
      · subst hpk
        rw [ih _ _ _, if_neg hr, mapGet_set_self, if_pos (List.mem_cons_self _ _),
          runKeywords_lookup_stable rest _ _ _ (upsertKeyword_pids_self s k),
          upsertKeyword_lookup_self]
      · have hnot : p ∉ k.pascal_id :: rest.map (fun k => k.pascal_id) := by
          intro hmem
          rcases List.mem_cons.mp hmem with h | h
          · exact hpk h
          · exact hr h
        rw [ih _ _ p, if_neg hr, mapGet_set_other m k.pascal_id p _ hpk, if_neg hnot]

/-! ## C3: ranking-stage lemmas -/

/-- The `(pascal_keyword_id, date)` keys present in the rankings table. -/
def rkKeys (s : Store) : List (Nat × String) := s.rankings.map (fun e => e.1)

/-- The rank of the LAST event with a given key in an upsert event list. -/
def lastVal : List ((Nat × String) × Int) → (Nat × String) → Option Int
  | [], _ => none
  | ev :: rest, key =>
    match lastVal rest key with
    | some v => some v
    | none => if ev.1 == key then some ev.2 else none

def rkOverwrite (L : List ((Nat × String) × Int)) (l : List ((Nat × String) × Int)) :
    List ((Nat × String) × Int) :=
  l.map (fun e => (e.1, (lastVal L e.1).getD e.2))

/-- The flat list of ranking-upsert events the ranking stage performs, in
order (groups whose `pascal_id` misses the map contribute none). -/
def rkEvents (m : List (Int × Nat)) (gs : List (Int × List PascalRankingData)) :
    List ((Nat × String) × Int) :=
  (gs.map (fun g =>
    match mapGet m g.1 with
    | some uid => g.2.map (fun r => ((uid, r.date), r.rank))
    | none => [])).flatten

def rkRun (s : Store) (L : List ((Nat × String) × Int)) : Store :=
  L.foldl (fun acc ev => upsertRanking acc ev.1 ev.2) s

theorem upsertRanking_keywords (s : Store) (key : Nat × String) (r : Int) :
    (upsertRanking s key r).keywords = s.keywords ∧
      (upsertRanking s key r).nextId = s.nextId := by
  simp only [upsertRanking]
  split_ifs <;> exact ⟨rfl, rfl⟩

theorem upsertRanking_keys_sub (s : Store) (key : Nat × String) (r : Int)
    (k' : Nat × String) (h : k' ∈ rkKeys s) : k' ∈ rkKeys (upsertRanking s key r) := by
  simp only [upsertRanking]
  split_ifs with ha
  · simp only [rkKeys] at h ⊢
    rw [List.map_map]
    have hcong : ∀ e ∈ s.rankings,
        ((fun x => x.1) ∘ (fun e => if e.1 == key then (e.1, r) else e)) e =
          (fun x => x.1) e := by
      intro e _
      simp only [Function.comp_apply]
      split_ifs <;> rfl
    rw [List.map_congr_left hcong]
    exact h
  · simp only [rkKeys] at h ⊢
    rw [List.map_append]
    exact List.mem_append_left _ h

theorem upsertRanking_keys_self (s : Store) (key : Nat × String) (r : Int) :
    key ∈ rkKeys (upsertRanking s key r) := by
  simp only [upsertRanking]
  split_ifs with ha
  · obtain ⟨e, hmem, hbe⟩ := List.any_eq_true.mp ha
    simp only [rkKeys]
    rw [List.map_map]
    have hcong : ∀ e ∈ s.rankings,
        ((fun x => x.1) ∘ (fun e => if e.1 == key then (e.1, r) else e)) e =
          (fun x => x.1) e := by
      intro e _
      simp only [Function.comp_apply]
      split_ifs <;> rfl
    rw [List.map_congr_left hcong]
    rw [← eq_of_beq hbe]
    exact List.mem_map_of_mem _ hmem
  · simp only [rkKeys]
    rw [List.map_append]
    exact List.mem_append_right _ (by simp)

theorem upsertRanking_mem_of_other (s : Store) (key : Nat × String) (r : Int)
    (e : (Nat × String) × Int) (hmem : e ∈ (upsertRanking s key r).rankings)
    (hne : e.1 ≠ key) : e ∈ s.rankings := by
  simp only [upsertRanking] at hmem
  split_ifs at hmem with ha
  · obtain ⟨e', he', heq⟩ := List.mem_map.mp hmem
    by_cases hc : (e'.1 == key) = true
    · rw [if_pos hc] at heq
      subst heq
      exact absurd (eq_of_beq hc) hne
    · rw [if_neg hc] at heq
      subst heq
      exact he'
  · rcases List.mem_append.mp hmem with h | h
    · exact h
    · rw [List.mem_singleton] at h
      subst h
      exact absurd rfl hne

theorem upsertRanking_val_of_key (s : Store) (key : Nat × String) (r : Int)
    (e : (Nat × String) × Int) (hmem : e ∈ (upsertRanking s key r).rankings)
    (hpe : e.1 = key) : e.2 = r := by
  simp only [upsertRanking] at hmem
  split_ifs at hmem with ha
  · obtain ⟨e', he', heq⟩ := List.mem_map.mp hmem
    by_cases hc : (e'.1 == key) = true
    · rw [if_pos hc] at heq
      subst heq
      rfl
    · rw [if_neg hc] at heq
      subst heq
      exact absurd (beq_iff_eq.mpr hpe) hc
  · rcases List.mem_append.mp hmem with h | h
    · have ha' : s.rankings.any (fun e => e.1 == key) = false := by
        rwa [Bool.not_eq_true] at ha
      have := List.any_eq_false.mp ha' e h
      exact absurd (beq_iff_eq.mpr hpe) this
    · rw [List.mem_singleton] at h
      subst h
      rfl

theorem rkRun_keywords (L : List ((Nat × String) × Int)) :
    ∀ s : Store, (rkRun s L).keywords = s.keywords ∧ (rkRun s L).nextId = s.nextId := by
  induction L with
  | nil => intro s; exact ⟨rfl, rfl⟩
  | cons ev rest ih =>
    intro s
    have h1 := upsertRanking_keywords s ev.1 ev.2
    have h2 := ih (upsertRanking s ev.1 ev.2)
    exact ⟨h2.1.trans h1.1, h2.2.trans h1.2⟩

theorem rkRun_keys_sub (L : List ((Nat × String) × Int)) (k' : Nat × String) :
    ∀ s : Store, k' ∈ rkKeys s → k' ∈ rkKeys (rkRun s L) := by
  induction L with
  | nil => intro s h; exact h
  | cons ev rest ih =>
    intro s h
    exact ih _ (upsertRanking_keys_sub s ev.1 ev.2 k' h)

theorem rkRun_covers (L : List ((Nat × String) × Int)) :
    ∀ s : Store, ∀ ev ∈ L, ev.1 ∈ rkKeys (rkRun s L) := by
  induction L with
  | nil => intro s ev hev; exact absurd hev (List.not_mem_nil ev)
  | cons ev0 rest ih =>
    intro s ev hev
    rcases List.mem_cons.mp hev with rfl | hev'
    · exact rkRun_keys_sub rest ev.1 _ (upsertRanking_keys_self s ev.1 ev.2)
    · exact ih _ ev hev'

theorem rkRun_mem_of_not_touched (L : List ((Nat × String) × Int)) :
    ∀ (s : Store) (e : (Nat × String) × Int),
      e ∈ (rkRun s L).rankings → e.1 ∉ L.map (fun ev => ev.1) → e ∈ s.rankings := by
  induction L with
  | nil => intro s e he _; exact he
  | cons ev rest ih =>
    intro s e he hn
    simp only [List.map_cons, List.mem_cons] at hn
    push_neg at hn
    exact upsertRanking_mem_of_other s ev.1 ev.2 e (ih _ e he hn.2) hn.1

theorem lastVal_none (L : List ((Nat × String) × Int)) (key : Nat × String) :
    lastVal L key = none ↔ key ∉ L.map (fun ev => ev.1) := by
  induction L with
  | nil => simp [lastVal]
  | cons ev rest ih =>
    simp only [lastVal, List.map_cons, List.mem_cons]
    cases hr : lastVal rest key with
    | some v =>
      have hmem : key ∈ rest.map (fun ev => ev.1) := by
        by_contra hc
        rw [← ih] at hc
        rw [hc] at hr
        exact Option.noConfusion hr
      constructor
      · intro h
        exact Option.noConfusion h
      · intro h
        exact absurd (Or.inr hmem) h
    | none =>
      by_cases hc : (ev.1 == key) = true
      · rw [if_pos hc]
        constructor
        · intro h
          exact Option.noConfusion h
        · intro h
          exact absurd (Or.inl (eq_of_beq hc).symm) h
      · rw [if_neg hc]
        constructor
        · intro _
          rintro (rfl | hmem)
          · exact hc (beq_self_eq_true _)
          · exact (ih.mp hr) hmem
        · intro _
          rfl

theorem rkRun_saturated (L : List ((Nat × String) × Int)) :
    ∀ (s : Store) (e : (Nat × String) × Int),
      e ∈ (rkRun s L).rankings → ∀ v, lastVal L e.1 = some v → e.2 = v := by
  induction L with
  | nil => intro s e _ v hv; exact Option.noConfusion hv
  | cons ev rest ih =>
    intro s e he v hv
    simp only [lastVal] at hv
    cases hr : lastVal rest e.1 with
    | some v' =>
      simp only [hr] at hv
      injection hv with hv
      rw [← hv]
      exact ih _ e he v' hr
    | none =>
      simp only [hr] at hv
      split_ifs at hv with hc
      · injection hv with hv
        subst hv
        have hnotin := (lastVal_none rest e.1).mp hr
        have he' := rkRun_mem_of_not_touched rest _ e he hnotin
        exact upsertRanking_val_of_key s ev.1 ev.2 e he' (eq_of_beq hc).symm

theorem rkOverwrite_saturated (L : List ((Nat × String) × Int))
    (l : List ((Nat × String) × Int))
    (h : ∀ e ∈ l, ∀ v, lastVal L e.1 = some v → e.2 = v) :
    rkOverwrite L l = l := by
  simp only [rkOverwrite]
  have hcong : ∀ e ∈ l, (e.1, (lastVal L e.1).getD e.2) = id e := by
    intro e he
    show (e.1, (lastVal L e.1).getD e.2) = e
    cases hl : lastVal L e.1 with
    | none => rfl
    | some v => rw [Option.getD_some, ← h e he v hl]
  rw [List.map_congr_left hcong, List.map_id]

theorem rkKeys_mem_any (s : Store) (key : Nat × String) (h : key ∈ rkKeys s) :
    s.rankings.any (fun e => e.1 == key) = true := by
  obtain ⟨e, hmem, he⟩ := List.mem_map.mp h
  exact List.any_eq_true.mpr ⟨e, hmem, by simp [he]⟩

theorem rkRun_overwrite (L : List ((Nat × String) × Int)) :
    ∀ s : Store, (∀ ev ∈ L, ev.1 ∈ rkKeys s) →
      rkRun s L = { s with rankings := rkOverwrite L s.rankings } := by
  induction L with
  | nil =>
    intro s _
    show s = { s with rankings := rkOverwrite [] s.rankings }
    have h : rkOverwrite [] s.rankings = s.rankings := by
      simp only [rkOverwrite]
      have hcong : ∀ e ∈ s.rankings, (e.1, (lastVal [] e.1).getD e.2) = id e := fun e _ => rfl
      rw [List.map_congr_left hcong, List.map_id]
    rw [h]
  | cons ev rest ih =>
    intro s hcov
    have hk : ev.1 ∈ rkKeys s := hcov ev (List.mem_cons_self ev rest)
    have ha := rkKeys_mem_any s ev.1 hk
    have hupd : upsertRanking s ev.1 ev.2 =
        { s with rankings := (s.rankings.map
            (fun e => if e.1 == ev.1 then (e.1, ev.2) else e)) } := by
      simp only [upsertRanking]
      rw [if_pos ha]
    show rkRun (upsertRanking s ev.1 ev.2) rest = _
    rw [hupd]
    rw [ih _ ?_]
    · congr 1
      simp only [rkOverwrite, List.map_map]
      apply List.map_congr_left
      intro e _
      simp only [Function.comp_apply]
      by_cases hc : (e.1 == ev.1) = true
      · rw [if_pos hc]
        have hpe : e.1 = ev.1 := eq_of_beq hc
        show (e.1, (lastVal rest e.1).getD ev.2) =
          (e.1, (lastVal (ev :: rest) e.1).getD e.2)
        simp only [lastVal]
        cases hl : lastVal rest e.1 with
        | some v => rfl
        | none =>
          rw [if_pos (by rw [hpe]; exact beq_self_eq_true ev.1)]
          rfl
      · rw [if_neg hc]
        show (e.1, (lastVal rest e.1).getD e.2) =
          (e.1, (lastVal (ev :: rest) e.1).getD e.2)
        simp only [lastVal]
        cases hl : lastVal rest e.1 with
        | some v => rfl
        | none =>
          have hck : (ev.1 == e.1) = false :=
            beq_eq_false_iff_ne.mpr (fun hh => hc (beq_iff_eq.mpr hh.symm))
          rw [if_neg (by rw [hck]; exact Bool.false_ne_true)]
    · intro ev' hev'
      have hkeys : rkKeys { s with rankings := (s.rankings.map
          (fun e => if e.1 == ev.1 then (e.1, ev.2) else e)) } = rkKeys s := by
        simp only [rkKeys]
        rw [List.map_map]
        apply List.map_congr_left
        intro e _
        simp only [Function.comp_apply]
        split_ifs <;> rfl
      rw [hkeys]
      exact hcov ev' (List.mem_cons_of_mem _ hev')

theorem rkRun_fixed (L : List ((Nat × String) × Int)) (s : Store)
    (hcov : ∀ ev ∈ L, ev.1 ∈ rkKeys s)
    (hsat : ∀ e ∈ s.rankings, ∀ v, lastVal L e.1 = some v → e.2 = v) :
    rkRun s L = s := by
  rw [rkRun_overwrite L s hcov, rkOverwrite_saturated L s.rankings hsat]

theorem rkEvents_congr (m1 m2 : List (Int × Nat)) (gs : List (Int × List PascalRankingData))
    (h : ∀ p, mapGet m1 p = mapGet m2 p) : rkEvents m1 gs = rkEvents m2 gs := by
  simp only [rkEvents]
  congr 1
  apply List.map_congr_left
  intro g _
  rw [h g.1]

theorem runRankings_store (gs : List (Int × List PascalRankingData)) :
    ∀ (s : Store) (m : List (Int × Nat)),
      (runRankings s m gs).1 = rkRun s (rkEvents m gs) := by
  induction gs with
  | nil => intro s m; rfl
  | cons g gs ih =>
    intro s m
    cases hg : mapGet m g.1 with
    | none =>
      have hrun : (runRankings s m (g :: gs)).1 = (runRankings s m gs).1 := by
        simp only [runRankings, hg]
      have hev : rkEvents m (g :: gs) = rkEvents m gs := by
        simp only [rkEvents, List.map_cons, List.flatten_cons, hg, List.nil_append]
      rw [hrun, hev, ih s m]
    | some uid =>
      have hrun : (runRankings s m (g :: gs)).1 =
          (runRankings (g.2.foldl (fun acc r => upsertRanking acc (uid, r.date) r.rank) s)
            m gs).1 := by
        simp only [runRankings, hg]
      have hev : rkEvents m (g :: gs) =
          (g.2.map (fun r => ((uid, r.date), r.rank))) ++ rkEvents m gs := by
        simp only [rkEvents, List.map_cons, List.flatten_cons, hg]
      rw [hrun, hev, ih _ m]
      simp only [rkRun]
      rw [List.foldl_append, List.foldl_map]

/-- C3: importing the same CSV twice through the orchestrator leaves the
store unchanged after the second run — the whole store, hence in particular
the number of keyword rows and every ranking row's rank.  Keyword upsert is
keyed on `pascal_id`, ranking upsert on `(pascal_keyword_id, date)`, so the
second run only overwrites rows with the values they already hold. -/
theorem import_is_idempotent (s0 : Store) (csv : String) :
    (importPascalCsv (importPascalCsv s0 csv).1 csv).1 = (importPascalCsv s0 csv).1 ∧
    (importPascalCsv (importPascalCsv s0 csv).1 csv).1.keywords.length =
      (importPascalCsv s0 csv).1.keywords.length ∧
    (importPascalCsv (importPascalCsv s0 csv).1 csv).1.rankings =
      (importPascalCsv s0 csv).1.rankings := by
  suffices h : (importPascalCsv (importPascalCsv s0 csv).1 csv).1 = (importPascalCsv s0 csv).1 by
    exact ⟨h, by rw [h], by rw [h]⟩
  by_cases hv : (validatePascalCsv csv).1 = false
  · have himp : ∀ store : Store, (importPascalCsv store csv).1 = store := by
      intro store
      simp [importPascalCsv, importPascalCsvBody, hv]
    rw [himp, himp]
  · have hv' : (validatePascalCsv csv).1 = true := by
      rcases Bool.eq_false_or_eq_true (validatePascalCsv csv).1 with h | h
      · exact h
      · exact absurd h hv
    cases hp : parsePascalCsv csv with
    | error e =>
      have himp : ∀ store : Store, (importPascalCsv store csv).1 = store := by
        intro store
        simp [importPascalCsv, importPascalCsvBody, hv', hp]
      rw [himp, himp]
    | ok d =>
      by_cases hz : d.keywords.length = 0
      · have himp : ∀ store : Store, (importPascalCsv store csv).1 = store := by
          intro store
          simp [importPascalCsv, importPascalCsvBody, hv', hp, hz]
        rw [himp, himp]
      · have himp : ∀ store : Store, (importPascalCsv store csv).1 =
            (runRankings (runKeywords store d.keywords []).1
              (runKeywords store d.keywords []).2 (groupRankings d.rankings)).1 := by
          intro store
          simp [importPascalCsv, importPascalCsvBody, hv', hp, hz]
        set t1s := (runKeywords s0 d.keywords []).1 with ht1s
        set t1m := (runKeywords s0 d.keywords []).2 with ht1m
        set G := groupRankings d.rankings with hG
        set E := rkEvents t1m G with hE
        set S1 := rkRun t1s E with hS1def
        have hS1 : (importPascalCsv s0 csv).1 = S1 := by
          rw [himp s0, runRankings_store]
        have hkw : S1.keywords = t1s.keywords := (rkRun_keywords E t1s).1
        have hcov1 : ∀ k ∈ d.keywords, k.pascal_id ∈ pids S1 := by
          intro k hk
          have : pids S1 = pids t1s := by simp only [pids, hkw]
          rw [this, ht1s]
          exact runKeywords_covers d.keywords s0 [] k hk
        have hsat1 : ∀ e ∈ S1.keywords, ∀ x,
            lastData d.keywords e.2.pascal_id = some x → e.2 = x := by
          intro e he x hx
          rw [hkw, ht1s] at he
          exact runKeywords_saturated d.keywords s0 [] e he x hx
        have hfix : (runKeywords S1 d.keywords []).1 = S1 :=
          runKeywords_fixed d.keywords S1 [] hcov1 hsat1
        have hmap : ∀ p, mapGet (runKeywords S1 d.keywords []).2 p = mapGet t1m p := by
          intro p
          rw [runKeywords_map_get, ht1m, runKeywords_map_get]
          by_cases hmem : p ∈ d.keywords.map (fun k => k.pascal_id)
          · rw [if_pos hmem, if_pos hmem, hfix]
            show kwLookup S1 p = kwLookup (runKeywords s0 d.keywords []).1 p
            simp only [kwLookup, hkw, ht1s]
          · rw [if_neg hmem, if_neg hmem]
        have hev : rkEvents (runKeywords S1 d.keywords []).2 G = E := by
          rw [hE]
          exact rkEvents_congr _ _ G hmap
        rw [hS1, himp S1, runRankings_store, hfix, hev]
        exact rkRun_fixed E S1 (fun ev hev' => rkRun_covers E t1s ev hev')
          (fun e he v hvv => rkRun_saturated E t1s e he v hvv)
